import Mathlib

/-!
Verification of the RDNSx DNS reconnaissance toolkit core against its
natural-language specification.  The definitions below are a shallow
embedding of the Rust sources under `rdnsx-core/src`: pure functions are
translated directly, stateful operations take their state (and the values
produced by the clock or by I/O) as explicit parameters, and fallible
operations return `Except`/`Option`.
-/

namespace RDNSx

/-- Embedding of `types.rs` `enum RecordType`: the closed enumeration of DNS
query classes the engine accepts, in declaration order. -/
inductive RecordType where
  | A | Aaaa | Cname | Mx | Txt | Ns | Soa | Ptr | Srv | Afsdb | Caa | Cert
  | Dname | Dnskey | Ds | Hinfo | Https | Key | Loc | Naptr | Nsec | Nsec3
  | Opt | Rrsig | Sshfp | Svcb | Tlsa | Uri
deriving DecidableEq, Repr

/-- Embedding of the hickory-dns wire-level record-type enumeration
(`hickory_resolver::proto::rr::RecordType`), restricted to the constructors
that appear in `RecordType::to_hickory` in `types.rs`. -/
inductive HRecordType where
  | A | AAAA | CNAME | MX | TXT | NS | SOA | PTR | SRV | CAA | ANAME
  | DNSKEY | DS | HINFO | HTTPS | KEY | NAPTR | NSEC | NSEC3 | OPT | RRSIG
  | SSHFP | SVCB | TLSA
deriving DecidableEq, Repr

/-- Embedding of `types.rs` `RecordType::to_hickory` (lines 106-140): the
match is reproduced arm by arm, including the final fallback arm
`Afsdb | Cert | Loc | Uri => HRecordType::A` that the source comments as
"Unsupported record types - return A as fallback", and the arm
`Dname => HRecordType::ANAME`. -/
def RecordType.to_hickory : RecordType → HRecordType
  | .A => .A
  | .Aaaa => .AAAA
  | .Cname => .CNAME
  | .Mx => .MX
  | .Txt => .TXT
  | .Ns => .NS
  | .Soa => .SOA
  | .Ptr => .PTR
  | .Srv => .SRV
  | .Caa => .CAA
  | .Dname => .ANAME
  | .Dnskey => .DNSKEY
  | .Ds => .DS
  | .Hinfo => .HINFO
  | .Https => .HTTPS
  | .Key => .KEY
  | .Naptr => .NAPTR
  | .Nsec => .NSEC
  | .Nsec3 => .NSEC3
  | .Opt => .OPT
  | .Rrsig => .RRSIG
  | .Sshfp => .SSHFP
  | .Svcb => .SVCB
  | .Tlsa => .TLSA
  | .Afsdb => .A
  | .Cert => .A
  | .Loc => .A
  | .Uri => .A

/-- Embedding of `types.rs` `enum ResponseCode`. -/
inductive ResponseCode where
  | NoError | ServFail | NxDomain | Refused | FormErr | NotImp | ServFailOther
deriving DecidableEq, Repr

/-- Embedding of `std::net::Ipv4Addr`: four octets.  The Rust type bounds
each octet by 255 (`u8`); the model uses `Nat` and carries the bound as a
wellformedness predicate where a proof needs it. -/
structure Ipv4 where
  o1 : Nat
  o2 : Nat
  o3 : Nat
  o4 : Nat
deriving DecidableEq, Repr

/-- Embedding of `std::net::Ipv6Addr`: eight 16-bit segments.  The Rust
type fixes the length at 8 and bounds each segment by 65535 (`u16`); the
model uses a `List Nat` and carries both as a wellformedness predicate. -/
structure Ipv6 where
  segs : List Nat
deriving DecidableEq, Repr

/-- Embedding of `std::net::IpAddr`. -/
inductive IpAddr where
  | V4 (ip : Ipv4)
  | V6 (ip : Ipv6)
deriving DecidableEq, Repr

/-- Wellformedness of a modelled IP address: exactly the values the Rust
`IpAddr` type can represent. -/
def IpAddr.wf : IpAddr → Bool
  | .V4 ip => ip.o1 < 256 && ip.o2 < 256 && ip.o3 < 256 && ip.o4 < 256
  | .V6 ip => ip.segs.length == 8 && ip.segs.all (· < 65536)

/-- Embedding of `types.rs` `enum RecordValue` (lines 229-337), in
declaration order (the order matters: the Rust type carries
`#[serde(untagged)]`, whose deserializer tries the variants in this
order).  Rust `u8`/`u16`/`u32` fields are modelled as `Nat`, `i32` fields
as `Int`, and `Vec<u8>` fields as `List Nat`. -/
inductive RecordValue where
  | Ip (ip : IpAddr)
  | Domain (d : String)
  | Text (t : String)
  | Mx (priority : Nat) (exchange : String)
  | Srv (priority weight port : Nat) (target : String)
  | Soa (mname rname : String) (serial : Nat) (refresh retry expire : Int)
      (minimum : Nat)
  | Caa (flags : Nat) (tag value : String)
  | Cert (cert_type key_tag algorithm : Nat) (certificate : List Nat)
  | Dnskey (flags protocol algorithm : Nat) (public_key : List Nat)
  | Ds (key_tag algorithm digest_type : Nat) (digest : List Nat)
  | Hinfo (cpu os : String)
  | Https (priority : Nat) (target : String) (params : List String)
  | Key (flags protocol algorithm : Nat) (public_key : List Nat)
  | Loc (version size horiz_pre vert_pre latitude longitude altitude : Nat)
  | Naptr (order preference : Nat) (flags services regexp replacement : String)
  | Sshfp (algorithm fingerprint_type : Nat) (fingerprint : List Nat)
  | Svcb (priority : Nat) (target : String) (params : List String)
  | Tlsa (cert_usage selector matching_type : Nat) (cert_data : List Nat)
  | Uri (priority weight : Nat) (target : String)
  | Other (s : String)
deriving DecidableEq, Repr

/-- Embedding of `types.rs` `struct DnsRecord` (lines 394-413).  The Rust
`timestamp: SystemTime` is modelled as a `Nat` wall-clock reading and the
Rust `query_time_ms: f64` as a rational number. -/
structure DnsRecord where
  domain : String
  record_type : RecordType
  value : RecordValue
  ttl : Nat
  response_code : ResponseCode
  resolver : String
  timestamp : Nat
  query_time_ms : ℚ
deriving DecidableEq, Repr

/-- Embedding of `types.rs` `DnsRecord::new` (lines 415-437).  The Rust
constructor stores every argument verbatim and stamps
`timestamp: SystemTime::now()`; the clock reading is the explicit first
parameter `now` here.  No argument is validated or altered. -/
def DnsRecord.new (now : Nat) (domain : String) (record_type : RecordType)
    (value : RecordValue) (ttl : Nat) (response_code : ResponseCode)
    (resolver : String) (query_time_ms : ℚ) : DnsRecord :=
  { domain := domain
    record_type := record_type
    value := value
    ttl := ttl
    response_code := response_code
    resolver := resolver
    timestamp := now
    query_time_ms := query_time_ms }

/-- Embedding of `error.rs` `enum DnsxError`.  The `Timeout` payload
(`std::time::Duration`) is modelled as a `Nat` number of clock ticks and
the `Network` payload (`std::io::Error`) as its message string. -/
inductive DnsxError where
  | Resolve (msg : String)
  | Timeout (duration : Nat)
  | InvalidInput (msg : String)
  | Validation (msg : String)
  | ResolverConfig (msg : String)
  | Network (msg : String)
  | Serialization (msg : String)
  | Export (msg : String)
  | Wildcard (msg : String)
  | Bruteforce (msg : String)
  | Other (msg : String)
deriving DecidableEq, Repr

/-- Embedding of `error.rs` `DnsxError::resolve`. -/
def DnsxError.resolve (msg : String) : DnsxError := .Resolve msg

/-- Embedding of `error.rs` `DnsxError::timeout`. -/
def DnsxError.timeout (duration : Nat) : DnsxError := .Timeout duration

/-- Embedding of `error.rs` `DnsxError::invalid_input`. -/
def DnsxError.invalid_input (msg : String) : DnsxError := .InvalidInput msg

/-- Embedding of the hickory-dns `RData` values that
`query.rs::parse_rdata` (lines 81-163) matches on, each constructor
carrying exactly the fields that `parse_rdata` reads.  TXT character
strings arrive as a list of already-decoded strings (the model of
`from_utf8_lossy` applied to each), CAA payloads are not read by the arm
that handles them, and every rdata the function does not match falls into
`other`, which carries its pretty-printed (`format!("\x7b:?\x7d", rdata)`)
form. -/
inductive RData where
  | a (ip : Ipv4)
  | aaaa (ip : Ipv6)
  | cname (name : String)
  | ptr (name : String)
  | ns (name : String)
  | mx (preference : Nat) (exchange : String)
  | txt (parts : List String)
  | srv (priority weight port : Nat) (target : String)
  | soa (mname rname : String) (serial : Nat) (refresh retry expire : Int)
      (minimum : Nat)
  | aname (name : String)
  | caa
  | sshfp (algorithm fingerprint_type : Nat) (fingerprint : List Nat)
  | tlsa (cert_usage selector matching : Nat) (cert_data : List Nat)
  | naptr (order preference : Nat) (flags services regexp replacement : String)
  | hinfo (cpu os : String)
  | other (debug_form : String)
deriving DecidableEq, Repr

/-- Embedding of `query.rs` `parse_rdata` (lines 81-163).  The Rust
function returns `Result<RecordValue>` but every arm returns `Ok`, so the
embedding is total. -/
def parse_rdata : RData → RecordValue
  | .a ip => .Ip (.V4 ip)
  | .aaaa ip => .Ip (.V6 ip)
  | .cname name => .Domain name
  | .ptr name => .Domain name
  | .ns name => .Domain name
  | .mx preference exchange => .Mx preference exchange
  | .txt parts => .Text (String.join parts)
  | .srv priority weight port target => .Srv priority weight port target
  | .soa mname rname serial refresh retry expire minimum =>
      .Soa mname rname serial refresh retry expire minimum
  | .aname name => .Domain name
  | .caa => .Text "CAA record parsing disabled"
  | .sshfp algorithm fingerprint_type fingerprint =>
      .Sshfp algorithm fingerprint_type fingerprint
  | .tlsa cert_usage selector matching cert_data =>
      .Tlsa cert_usage selector matching cert_data
  | .naptr order preference flags services regexp replacement =>
      .Naptr order preference flags services regexp replacement
  | .hinfo cpu os => .Hinfo cpu os
  | .other debug_form => .Other debug_form

/-- Embedding of one resource record of a hickory `Lookup`: the rdata
together with its TTL, as read by `QueryEngine::query` via
`record.data()` and `record.ttl()`. -/
structure WireRecord where
  rdata : RData
  ttl : Nat
deriving DecidableEq, Repr

/-- Outcome of one `tokio::time::timeout(self.timeout, resolver.lookup(..))`
call in `resolver.rs`: the hickory lookup succeeded with a list of
resource records (`Ok(Ok(lookup))`), the resolver returned an error such
as a transport failure or `NxDomain`-as-`NoRecordsFound` (`Ok(Err(e))`),
or the deadline elapsed (`Err(_)`). -/
inductive ResolverOutcome where
  | success (lookup : List WireRecord)
  | failure (msg : String)
  | timedOut
deriving DecidableEq, Repr

/-- One backup resolver of the pool: its parsed `host:port` address string
(stored in `ResolverPool::_backup_resolver_addrs`) paired with the outcome
its `lookup` call would produce.  `ResolverPool::try_backup_resolvers`
iterates only over the resolvers; the stored address strings are never
read by it. -/
structure BackupResolver where
  addr : String
  outcome : ResolverOutcome
deriving DecidableEq, Repr

/-- Embedding of `resolver.rs` `ResolverPool::try_backup_resolvers`
(lines 150-173): walk the backup resolvers in list order; the first
successful lookup returns with the fixed identity string
`"backup-resolver"`; a lookup error or a timeout falls through to the
next; exhaustion yields `DnsxError::resolve("All resolvers failed")`. -/
def ResolverPool.try_backup_resolvers :
    List BackupResolver → Except DnsxError (List WireRecord × String)
  | [] => .error (DnsxError.resolve "All resolvers failed")
  | backup :: rest =>
      match backup.outcome with
      | .success response => .ok (response, "backup-resolver")
      | .failure _ => ResolverPool.try_backup_resolvers rest
      | .timedOut => ResolverPool.try_backup_resolvers rest

/-- Embedding of `resolver.rs` `ResolverPool::query` (lines 107-142) after
the semaphore acquisition (the sequential model always obtains the permit)
and the `Name::parse` step, whose success is the explicit flag
`domain_parse_ok` (on failure the function returns
`DnsxError::invalid_input` before contacting any resolver).  The primary
resolver is attempted first: success returns the lookup with the primary
address string; a lookup error falls through to
`try_backup_resolvers`; a deadline exceeded returns
`DnsxError::timeout(self.timeout)` directly. -/
def ResolverPool.query (primary_resolver_addr : String) (tmo : Nat)
    (domain_parse_ok : Bool) (primary : ResolverOutcome)
    (backups : List BackupResolver) :
    Except DnsxError (List WireRecord × String) :=
  if !domain_parse_ok then
    .error (DnsxError.invalid_input "Invalid domain name")
  else
    match primary with
    | .success lookup => .ok (lookup, primary_resolver_addr)
    | .failure _ => ResolverPool.try_backup_resolvers backups
    | .timedOut => .error (DnsxError.timeout tmo)

/-- Embedding of `query.rs` `QueryEngine::query` (lines 25-67) as a
function of the resolver pool's result.  The clock readings that the Rust
code takes (`Instant::now()` for `query_time_ms`, `SystemTime::now()`
inside `DnsRecord::new`) are the explicit parameters `query_time_ms` and
`now`.  A pool error propagates; otherwise every resource record is
decoded through `parse_rdata` with the response code fixed to `NoError`,
and when the decoded list is empty a single synthetic record with value
`Other("No records found")` and ttl 0 is pushed. -/
def QueryEngine.query (now : Nat) (query_time_ms : ℚ) (domain : String)
    (record_type : RecordType)
    (pool_result : Except DnsxError (List WireRecord × String)) :
    Except DnsxError (List DnsRecord) :=
  match pool_result with
  | .error e => .error e
  | .ok (lookup, resolver_addr) =>
      let response_code := ResponseCode.NoError
      let records := lookup.map (fun w =>
        DnsRecord.new now domain record_type (parse_rdata w.rdata) w.ttl
          response_code resolver_addr query_time_ms)
      if records.isEmpty && (response_code == ResponseCode.NoError) then
        .ok (records ++
          [DnsRecord.new now domain record_type
            (.Other "No records found") 0 response_code resolver_addr
            query_time_ms])
      else
        .ok records

/-- Embedding of `cache.rs` `struct CacheKey` (lines 14-41): domain plus
record type, with equality on both fields. -/
structure CacheKey where
  domain : String
  record_type : RecordType
deriving DecidableEq, Repr

/-- Embedding of `cache.rs` `struct CachedResponse` (lines 43-49).  The
Rust `cached_at: Instant` monotonic-clock reading and the
`ttl: Duration` are both modelled as `Nat` clock ticks. -/
structure CachedResponse where
  records : List DnsRecord
  cached_at : Nat
  ttl : Nat
deriving DecidableEq, Repr

/-- Embedding of `cache.rs` `CachedResponse::new` (lines 52-58); the
`Instant::now()` reading is the explicit parameter `now`. -/
def CachedResponse.new (now : Nat) (records : List DnsRecord) (ttl : Nat) :
    CachedResponse :=
  { records := records, cached_at := now, ttl := ttl }

/-- Embedding of `cache.rs` `CachedResponse::is_valid` (lines 61-63):
`cached_at.elapsed() < ttl`, with `elapsed` the truncated difference
between the current monotonic reading `now` and `cached_at`. -/
def CachedResponse.is_valid (now : Nat) (c : CachedResponse) : Bool :=
  now - c.cached_at < c.ttl

/-- The `HashMap<CacheKey, CachedResponse>` inside `DnsCache`, modelled as
an association list whose keys are kept distinct by `insert` (the Rust
`HashMap::insert` overwrites the previous entry for an equal key).  The
list order stands in for the map's unspecified iteration order. -/
def CacheMap : Type := List (CacheKey × CachedResponse)

/-- Lookup in the association-list model of the cache map. -/
def CacheMap.lookup (key : CacheKey) : CacheMap → Option CachedResponse
  | [] => none
  | (k, v) :: rest => if k = key then some v else CacheMap.lookup key rest

/-- Insertion in the association-list model of the cache map: any entry
with the same key is removed (`HashMap::insert` overwrites) and the new
binding appended. -/
def CacheMap.insert (key : CacheKey) (v : CachedResponse) (m : CacheMap) :
    CacheMap :=
  (List.filter (fun kv => kv.1 ≠ key) m) ++ [(key, v)]

/-- Length of the association-list model, i.e. `HashMap::len`. -/
def CacheMap.size (m : CacheMap) : Nat := List.length m

/-- Embedding of `cache.rs` `DnsCache::get` (lines 93-106): return the
cached records iff an entry exists for the key and is still valid at the
current monotonic reading `now`.  The Rust function only takes the read
lock: it never mutates the map, so the model returns only the `Option`
(an expired entry stays in the map, "will be cleaned up on next put"). -/
def DnsCache.get (now : Nat) (key : CacheKey) (m : CacheMap) :
    Option (List DnsRecord) :=
  match CacheMap.lookup key m with
  | some cached =>
      if CachedResponse.is_valid now cached then some cached.records else none
  | none => none

/-- Embedding of `cache.rs` `DnsCache::cleanup_expired` (lines 166-168):
retain only the entries still valid at `now`. -/
def DnsCache.cleanup_expired (now : Nat) (m : CacheMap) : CacheMap :=
  List.filter (fun kv => CachedResponse.is_valid now kv.2) m

/-- Embedding of `cache.rs` `DnsCache::evict_oldest` (lines 171-179):
remove `max(len / 10, 1)` entries, taken from the map's iteration order
(`cache.keys().take(to_remove)`); in the association-list model these are
the first `to_remove` bindings. -/
def DnsCache.evict_oldest (m : CacheMap) : CacheMap :=
  List.drop (Nat.max (CacheMap.size m / 10) 1) m

/-- Embedding of `cache.rs` `DnsCache::put` (lines 109-127) for a cache
with capacity `max_size` and default TTL `default_ttl`: resolve the
effective TTL (`ttl.unwrap_or(default_ttl)`), build the entry at the
current monotonic reading `now`, purge expired entries if the map is at
capacity, evict oldest entries if it still is, then insert. -/
def DnsCache.put (max_size default_ttl : Nat) (now : Nat) (key : CacheKey)
    (records : List DnsRecord) (ttl : Option Nat) (m : CacheMap) : CacheMap :=
  let ttl := ttl.getD default_ttl
  let cached_response := CachedResponse.new now records ttl
  let m :=
    if max_size ≤ CacheMap.size m then DnsCache.cleanup_expired now m else m
  let m :=
    if max_size ≤ CacheMap.size m then DnsCache.evict_oldest m else m
  CacheMap.insert key cached_response m

/-- One `put` call of a sequence, with the monotonic reading it executes
at and its arguments. -/
structure PutOp where
  now : Nat
  key : CacheKey
  records : List DnsRecord
  ttl : Option Nat

/-- Replay of a sequence of `put` calls on a cache map, in order, with no
concurrent writers. -/
def DnsCache.runPuts (max_size default_ttl : Nat) (ops : List PutOp)
    (m : CacheMap) : CacheMap :=
  ops.foldl
    (fun acc op => DnsCache.put max_size default_ttl op.now op.key
      op.records op.ttl acc) m

/-- Outcome of `timeout(self.config.timeout, query_fn(item))` for one item
in `concurrency.rs` `ConcurrentProcessor::process_batch` (lines 133-188):
the operation returned `Ok(records)`, returned `Err(e)`, or exceeded the
per-item deadline. -/
inductive ItemOutcome where
  | success (records : List DnsRecord)
  | failure (e : DnsxError)
  | timedOut
deriving Repr

/-- Embedding of the per-item `match result` inside
`ConcurrentProcessor::process_batch`: a successful operation yields its
records, while an operation error or a timeout is logged and yields
`Ok(Vec::new())`. -/
def ConcurrentProcessor.handle_item :
    ItemOutcome → Except DnsxError (List DnsRecord)
  | .success records => .ok records
  | .failure _ => .ok []
  | .timedOut => .ok []

/-- Embedding of `concurrency.rs` `ConcurrentProcessor::process_batch`
(lines 133-188) as a function of the items' outcomes: each item is handled
by `handle_item`, the per-item results are collected (`buffer_unordered`
delivers them in completion order; the model keeps list order, which the
batch result does not depend on beyond a permutation), `Ok` results are
concatenated and `Err` results are logged and skipped, and the batch
returns `Ok(all_records)`. -/
def ConcurrentProcessor.process_batch (outcomes : List ItemOutcome) :
    Except DnsxError (List DnsRecord) :=
  let results := outcomes.map ConcurrentProcessor.handle_item
  .ok (results.foldl
    (fun all_records result =>
      match result with
      | .ok records => all_records ++ records
      | .error _ => all_records) [])

/-- Embedding of the interval computation in `concurrency.rs`
`RateLimiter::new` (lines 198-211), in microseconds:
`Duration::from_micros(1_000_000 / requests_per_second)` for a positive
rate (`/` is `u64` integer division) and zero otherwise. -/
def RateLimiter.interval_us (requests_per_second : Nat) : Nat :=
  if requests_per_second > 0 then 1000000 / requests_per_second else 0

/-- Result of one `RateLimiter::wait` call: how long the caller sleeps and
the new `last_request` state (`none` when the early return leaves the
state untouched). -/
structure WaitResult where
  sleep_us : Nat
  new_last_request : Option Nat
deriving DecidableEq, Repr

/-- Embedding of `concurrency.rs` `RateLimiter::wait` (lines 214-229) for
a limiter whose interval is `interval_us` microseconds, called when the
stored state is `last_request` and the clock reads `now`: a zero interval
returns immediately, touching nothing; otherwise the caller sleeps for the
remainder of the interval (if any) and `last_request` is set to the
`Instant::now()` taken after the sleep, modelled as `now + sleep_us`. -/
def RateLimiter.wait (interval_us : Nat) (last_request now : Nat) :
    WaitResult :=
  if interval_us = 0 then
    { sleep_us := 0, new_last_request := none }
  else
    let elapsed := now - last_request
    let sleep_us := if elapsed < interval_us then interval_us - elapsed else 0
    { sleep_us := sleep_us, new_last_request := some (now + sleep_us) }

/-- Character for the digit `d` (0-15): `0`-`9` then lowercase `a`-`f`,
as produced by the Rust standard formatter for decimal and hexadecimal
numbers. -/
def digitChar (d : Nat) : Char :=
  if d < 10 then Char.ofNat (48 + d) else Char.ofNat (87 + d)

/-- Canonical base-`b` rendering of a natural number, most significant
digit first, modelling the Rust standard `Display`/`LowerHex` output used
by `Ipv4Addr`/`Ipv6Addr` formatting. -/
def natToBase (b n : Nat) : List Char :=
  if n = 0 then ['0'] else ((Nat.digits b n).map digitChar).reverse

/-- Numeric value of one digit character, accepting `0`-`9`, `a`-`f` and
`A`-`F` as the Rust standard parsers do. -/
def digitVal (c : Char) : Option Nat :=
  if 48 ≤ c.toNat ∧ c.toNat ≤ 57 then some (c.toNat - 48)
  else if 97 ≤ c.toNat ∧ c.toNat ≤ 102 then some (c.toNat - 87)
  else if 65 ≤ c.toNat ∧ c.toNat ≤ 70 then some (c.toNat - 55)
  else none

/-- Sequence an option-valued function over a list, failing if any
element fails (the semantics of `collect` over `Result`/`Option` used
implicitly by the Rust parsers and by serde sequence deserializers). -/
def optionMapM {α β : Type} (f : α → Option β) : List α → Option (List β)
  | [] => some []
  | x :: xs =>
      match f x, optionMapM f xs with
      | some y, some ys => some (y :: ys)
      | _, _ => none

/-- Parse a nonempty all-digit character run in base `b`; any character
that is not a digit below `b` rejects the run. -/
def parseBase (b : Nat) (cs : List Char) : Option Nat :=
  if cs.isEmpty then none
  else
    match optionMapM digitVal cs with
    | none => none
    | some ds =>
        if ds.all (· < b) then
          some (ds.foldl (fun acc d => acc * b + d) 0)
        else none

/-- Split a character list on a separator character; `n` separators yield
`n + 1` (possibly empty) groups. -/
def splitOnChar (sep : Char) : List Char → List (List Char)
  | [] => [[]]
  | c :: cs =>
      let r := splitOnChar sep cs
      if c = sep then [] :: r
      else
        match r with
        | [] => [[c]]
        | g :: gs => (c :: g) :: gs

/-- Join character groups with a separator character (the inverse of
`splitOnChar` on separator-free groups). -/
def joinSep (sep : Char) : List (List Char) → List Char
  | [] => []
  | [g] => g
  | g :: gs => g ++ sep :: joinSep sep gs

/-- Model of the Rust `Ipv4Addr` `Display`: the four octets in decimal,
joined with dots. -/
def Ipv4.display (ip : Ipv4) : List Char :=
  joinSep '.'
    [natToBase 10 ip.o1, natToBase 10 ip.o2, natToBase 10 ip.o3,
      natToBase 10 ip.o4]

/-- Length of the leading run of zero segments. -/
def prefixZeros : List Nat → Nat
  | [] => 0
  | s :: rest => if s = 0 then prefixZeros rest + 1 else 0

/-- Start and length of the first longest run of zero segments, the run
the Rust `Ipv6Addr` formatter compresses (a strictly longer run replaces
the current best, so the first longest run wins, as in Rust). -/
def bestZeroRun (segs : List Nat) : Nat × Nat :=
  (List.range segs.length).foldl
    (fun best i =>
      let len := prefixZeros (segs.drop i)
      if best.2 < len then (i, len) else best)
    (0, 0)

/-- Model of the Rust `Ipv6Addr` `Display`: an IPv4-mapped address
(segments `[0, 0, 0, 0, 0, 0xffff, g7, g8]`) prints as
`::ffff:a.b.c.d`; otherwise the eight lowercase-hexadecimal segments are
joined with colons, with the first longest run of at least two zero
segments compressed to `::`. -/
def Ipv6.display (ip : Ipv6) : List Char :=
  if ip.segs.length = 8 ∧ ip.segs.take 6 = [0, 0, 0, 0, 0, 65535] then
    ':' :: ':' :: 'f' :: 'f' :: 'f' :: 'f' :: ':' ::
      Ipv4.display ⟨ip.segs.getD 6 0 / 256, ip.segs.getD 6 0 % 256,
        ip.segs.getD 7 0 / 256, ip.segs.getD 7 0 % 256⟩
  else
    let best := bestZeroRun ip.segs
    if 1 < best.2 then
      joinSep ':' ((ip.segs.take best.1).map (natToBase 16)) ++
        ':' :: ':' ::
          joinSep ':' ((ip.segs.drop (best.1 + best.2)).map (natToBase 16))
    else joinSep ':' (ip.segs.map (natToBase 16))

/-- Model of one octet of the Rust `Ipv4Addr` `FromStr`: a nonempty
decimal run with no leading zero, of value at most 255. -/
def parseOctet (cs : List Char) : Option Nat :=
  if 1 < cs.length ∧ cs.head? = some '0' then none
  else
    match parseBase 10 cs with
    | some v => if v ≤ 255 then some v else none
    | none => none

/-- Model of the Rust `Ipv4Addr` `FromStr`: exactly four dot-separated
octets. -/
def parseIpv4 (cs : List Char) : Option Ipv4 :=
  match optionMapM parseOctet (splitOnChar '.' cs) with
  | some [o1, o2, o3, o4] => some ⟨o1, o2, o3, o4⟩
  | _ => none

/-- Model of one segment of the Rust `Ipv6Addr` `FromStr`: at most four
hexadecimal digits. -/
def parseSeg (cs : List Char) : Option Nat :=
  if cs.length ≤ 4 then parseBase 16 cs else none

/-- Replace a trailing embedded IPv4 dotted-quad group by its two 16-bit
segment values, as the Rust `Ipv6Addr` parser does for forms like
`::ffff:1.2.3.4` (the dotted quad is admitted only as the final group). -/
def expandTailIpv4 :
    List (List Char) → Option (List (List Char) × List Nat)
  | [] => some ([], [])
  | [last] =>
      if '.' ∈ last then
        match parseIpv4 last with
        | some ip =>
            some ([], [ip.o1 * 256 + ip.o2, ip.o3 * 256 + ip.o4])
        | none => none
      else some ([last], [])
  | p :: rest =>
      match expandTailIpv4 rest with
      | some (ps, v4segs) => some (p :: ps, v4segs)
      | none => none

/-- Model of the Rust `Ipv6Addr` `FromStr`: hexadecimal groups of at most
four digits joined with colons, a possible `::` gap standing for one or
more zero groups, and a possible trailing embedded IPv4 dotted-quad
counting as two groups.  The model is deliberately permissive: it accepts
every string the Rust parser accepts and additionally some ill-formed
colon patterns (several gaps, stray leading or trailing colons) that Rust
rejects.  The theorems depend on acceptance only through the canonical
display forms, which both parsers accept with the same value, and through
the `Domain` hypothesis of the round-trip theorem, where accepting more
strings only shrinks the covered set. -/
def parseIpv6 (cs : List Char) : Option Ipv6 :=
  match expandTailIpv4 (splitOnChar ':' cs) with
  | none => none
  | some (groupParts, v4segs) =>
      let before := groupParts.takeWhile (fun p => !p.isEmpty)
      let after := (groupParts.dropWhile (fun p => !p.isEmpty)).filter
        (fun p => !p.isEmpty)
      if groupParts.any (fun p => p.isEmpty) then
        match optionMapM parseSeg before, optionMapM parseSeg after with
        | some gb, some ga =>
            if gb.length + ga.length + v4segs.length ≤ 7 then
              some ⟨gb ++
                List.replicate
                  (8 - (gb.length + ga.length + v4segs.length)) 0 ++
                ga ++ v4segs⟩
            else none
        | _, _ => none
      else
        match optionMapM parseSeg groupParts with
        | some gs =>
            if gs.length + v4segs.length = 8 then some ⟨gs ++ v4segs⟩
            else none
        | none => none

/-- Display of a modelled `IpAddr`, as the Rust `Display` used when serde
serializes an `IpAddr` in a human-readable format. -/
def IpAddr.display : IpAddr → List Char
  | .V4 ip => Ipv4.display ip
  | .V6 ip => Ipv6.display ip

/-- String form of a modelled `IpAddr`. -/
def IpAddr.displayString (ip : IpAddr) : String := String.mk ip.display

/-- Model of the Rust `IpAddr` `FromStr` used when serde deserializes an
`IpAddr` from a string: try IPv4, then IPv6. -/
def parseIpChars (cs : List Char) : Option IpAddr :=
  match parseIpv4 cs with
  | some ip => some (.V4 ip)
  | none =>
      match parseIpv6 cs with
      | some ip => some (.V6 ip)
      | none => none

/-- Model of the Rust `IpAddr` `FromStr` on strings. -/
def parseIp (s : String) : Option IpAddr := parseIpChars s.data

/-- Abstract JSON value, the target of the serde-derived serializers in
`types.rs`.  Numbers are modelled as rationals (serde_json numbers cover
the integral fields of `RecordValue` exactly; for the one floating-point
field, `query_time_ms`, the model covers the finite doubles, which
serde_json round-trips exactly). -/
inductive Json where
  | str (s : String)
  | num (q : ℚ)
  | arr (elems : List Json)
  | obj (fields : List (String × Json))

/-- JSON number for an unsigned integral Rust field. -/
def jNat (n : Nat) : Json := .num (n : ℚ)

/-- JSON number for a signed integral Rust field. -/
def jInt (i : Int) : Json := .num (i : ℚ)

/-- JSON array for a Rust `Vec<u8>` field (serde serializes it as an
array of numbers). -/
def jBytes (l : List Nat) : Json := .arr (l.map jNat)

/-- JSON array for a Rust `Vec<String>` field. -/
def jStrList (l : List String) : Json := .arr (l.map Json.str)

/-- Embedding of the serde `Serialize` derived for `types.rs`
`RecordValue` with `#[serde(untagged)]`: each variant serializes its bare
content with no tag — `IpAddr` as its display string, newtype string
variants as the string, and struct variants as an object with the Rust
field names. -/
def RecordValue.toJson : RecordValue → Json
  | .Ip ip => .str ip.displayString
  | .Domain d => .str d
  | .Text t => .str t
  | .Mx priority exchange =>
      .obj [("priority", jNat priority), ("exchange", .str exchange)]
  | .Srv priority weight port target =>
      .obj [("priority", jNat priority), ("weight", jNat weight),
        ("port", jNat port), ("target", .str target)]
  | .Soa mname rname serial refresh retry expire minimum =>
      .obj [("mname", .str mname), ("rname", .str rname),
        ("serial", jNat serial), ("refresh", jInt refresh),
        ("retry", jInt retry), ("expire", jInt expire),
        ("minimum", jNat minimum)]
  | .Caa flags tag value =>
      .obj [("flags", jNat flags), ("tag", .str tag), ("value", .str value)]
  | .Cert cert_type key_tag algorithm certificate =>
      .obj [("cert_type", jNat cert_type), ("key_tag", jNat key_tag),
        ("algorithm", jNat algorithm), ("certificate", jBytes certificate)]
  | .Dnskey flags protocol algorithm public_key =>
      .obj [("flags", jNat flags), ("protocol", jNat protocol),
        ("algorithm", jNat algorithm), ("public_key", jBytes public_key)]
  | .Ds key_tag algorithm digest_type digest =>
      .obj [("key_tag", jNat key_tag), ("algorithm", jNat algorithm),
        ("digest_type", jNat digest_type), ("digest", jBytes digest)]
  | .Hinfo cpu os => .obj [("cpu", .str cpu), ("os", .str os)]
  | .Https priority target params =>
      .obj [("priority", jNat priority), ("target", .str target),
        ("params", jStrList params)]
  | .Key flags protocol algorithm public_key =>
      .obj [("flags", jNat flags), ("protocol", jNat protocol),
        ("algorithm", jNat algorithm), ("public_key", jBytes public_key)]
  | .Loc version size horiz_pre vert_pre latitude longitude altitude =>
      .obj [("version", jNat version), ("size", jNat size),
        ("horiz_pre", jNat horiz_pre), ("vert_pre", jNat vert_pre),
        ("latitude", jNat latitude), ("longitude", jNat longitude),
        ("altitude", jNat altitude)]
  | .Naptr order preference flags services regexp replacement =>
      .obj [("order", jNat order), ("preference", jNat preference),
        ("flags", .str flags), ("services", .str services),
        ("regexp", .str regexp), ("replacement", .str replacement)]
  | .Sshfp algorithm fingerprint_type fingerprint =>
      .obj [("algorithm", jNat algorithm),
        ("fingerprint_type", jNat fingerprint_type),
        ("fingerprint", jBytes fingerprint)]
  | .Svcb priority target params =>
      .obj [("priority", jNat priority), ("target", .str target),
        ("params", jStrList params)]
  | .Tlsa cert_usage selector matching_type cert_data =>
      .obj [("cert_usage", jNat cert_usage), ("selector", jNat selector),
        ("matching_type", jNat matching_type), ("cert_data", jBytes cert_data)]
  | .Uri priority weight target =>
      .obj [("priority", jNat priority), ("weight", jNat weight),
        ("target", .str target)]
  | .Other s => .str s

/-- Field lookup in a JSON object (serde matches fields by name,
ignoring order and unknown fields). -/
def jGet (fields : List (String × Json)) (name : String) : Option Json :=
  match fields with
  | [] => none
  | (k, v) :: rest => if k = name then some v else jGet rest name

/-- Read a JSON value as a string. -/
def Json.asStr : Json → Option String
  | .str s => some s
  | _ => none

/-- Read a JSON value as an unsigned integer (an integral, nonnegative
number), as serde does for a `u8`/`u16`/`u32` field. -/
def Json.asNat : Json → Option Nat
  | .num q => if q.den = 1 ∧ 0 ≤ q.num then some q.num.toNat else none
  | _ => none

/-- Read a JSON value as a signed integer, as serde does for an `i32`
field. -/
def Json.asInt : Json → Option Int
  | .num q => if q.den = 1 then some q.num else none
  | _ => none

/-- Read a JSON value as a number, as serde does for an `f64` field. -/
def Json.asRat : Json → Option ℚ
  | .num q => some q
  | _ => none

/-- Read a JSON value as a `Vec<u8>`. -/
def Json.asBytes : Json → Option (List Nat)
  | .arr elems => optionMapM Json.asNat elems
  | _ => none

/-- Read a JSON value as a `Vec<String>`. -/
def Json.asStrList : Json → Option (List String)
  | .arr elems => optionMapM Json.asStr elems
  | _ => none

/-- Fetch a named string field of a JSON object. -/
def getStr (fields : List (String × Json)) (name : String) : Option String :=
  (jGet fields name).bind Json.asStr

/-- Fetch a named unsigned-integer field of a JSON object. -/
def getNat (fields : List (String × Json)) (name : String) : Option Nat :=
  (jGet fields name).bind Json.asNat

/-- Fetch a named signed-integer field of a JSON object. -/
def getInt (fields : List (String × Json)) (name : String) : Option Int :=
  (jGet fields name).bind Json.asInt

/-- Fetch a named number field of a JSON object. -/
def getRat (fields : List (String × Json)) (name : String) : Option ℚ :=
  (jGet fields name).bind Json.asRat

/-- Fetch a named byte-array field of a JSON object. -/
def getBytes (fields : List (String × Json)) (name : String) :
    Option (List Nat) :=
  (jGet fields name).bind Json.asBytes

/-- Fetch a named string-array field of a JSON object. -/
def getStrList (fields : List (String × Json)) (name : String) :
    Option (List String) :=
  (jGet fields name).bind Json.asStrList

/-- Attempt to deserialize the `Mx` variant from a JSON object. -/
def tryMx (f : List (String × Json)) : Option RecordValue := do
  let priority ← getNat f "priority"
  let exchange ← getStr f "exchange"
  pure (.Mx priority exchange)

/-- Attempt to deserialize the `Srv` variant from a JSON object. -/
def trySrv (f : List (String × Json)) : Option RecordValue := do
  let priority ← getNat f "priority"
  let weight ← getNat f "weight"
  let port ← getNat f "port"
  let target ← getStr f "target"
  pure (.Srv priority weight port target)

/-- Attempt to deserialize the `Soa` variant from a JSON object. -/
def trySoa (f : List (String × Json)) : Option RecordValue := do
  let mname ← getStr f "mname"
  let rname ← getStr f "rname"
  let serial ← getNat f "serial"
  let refresh ← getInt f "refresh"
  let retry ← getInt f "retry"
  let expire ← getInt f "expire"
  let minimum ← getNat f "minimum"
  pure (.Soa mname rname serial refresh retry expire minimum)

/-- Attempt to deserialize the `Caa` variant from a JSON object. -/
def tryCaa (f : List (String × Json)) : Option RecordValue := do
  let flags ← getNat f "flags"
  let tag ← getStr f "tag"
  let value ← getStr f "value"
  pure (.Caa flags tag value)

/-- Attempt to deserialize the `Cert` variant from a JSON object. -/
def tryCert (f : List (String × Json)) : Option RecordValue := do
  let cert_type ← getNat f "cert_type"
  let key_tag ← getNat f "key_tag"
  let algorithm ← getNat f "algorithm"
  let certificate ← getBytes f "certificate"
  pure (.Cert cert_type key_tag algorithm certificate)

/-- Attempt to deserialize the `Dnskey` variant from a JSON object. -/
def tryDnskey (f : List (String × Json)) : Option RecordValue := do
  let flags ← getNat f "flags"
  let protocol ← getNat f "protocol"
  let algorithm ← getNat f "algorithm"
  let public_key ← getBytes f "public_key"
  pure (.Dnskey flags protocol algorithm public_key)

/-- Attempt to deserialize the `Ds` variant from a JSON object. -/
def tryDs (f : List (String × Json)) : Option RecordValue := do
  let key_tag ← getNat f "key_tag"
  let algorithm ← getNat f "algorithm"
  let digest_type ← getNat f "digest_type"
  let digest ← getBytes f "digest"
  pure (.Ds key_tag algorithm digest_type digest)

/-- Attempt to deserialize the `Hinfo` variant from a JSON object. -/
def tryHinfo (f : List (String × Json)) : Option RecordValue := do
  let cpu ← getStr f "cpu"
  let os ← getStr f "os"
  pure (.Hinfo cpu os)

/-- Attempt to deserialize the `Https` variant from a JSON object. -/
def tryHttps (f : List (String × Json)) : Option RecordValue := do
  let priority ← getNat f "priority"
  let target ← getStr f "target"
  let params ← getStrList f "params"
  pure (.Https priority target params)

/-- Attempt to deserialize the `Key` variant from a JSON object. -/
def tryKey (f : List (String × Json)) : Option RecordValue := do
  let flags ← getNat f "flags"
  let protocol ← getNat f "protocol"
  let algorithm ← getNat f "algorithm"
  let public_key ← getBytes f "public_key"
  pure (.Key flags protocol algorithm public_key)

/-- Attempt to deserialize the `Loc` variant from a JSON object. -/
def tryLoc (f : List (String × Json)) : Option RecordValue := do
  let version ← getNat f "version"
  let size ← getNat f "size"
  let horiz_pre ← getNat f "horiz_pre"
  let vert_pre ← getNat f "vert_pre"
  let latitude ← getNat f "latitude"
  let longitude ← getNat f "longitude"
  let altitude ← getNat f "altitude"
  pure (.Loc version size horiz_pre vert_pre latitude longitude altitude)

/-- Attempt to deserialize the `Naptr` variant from a JSON object. -/
def tryNaptr (f : List (String × Json)) : Option RecordValue := do
  let order ← getNat f "order"
  let preference ← getNat f "preference"
  let flags ← getStr f "flags"
  let services ← getStr f "services"
  let regexp ← getStr f "regexp"
  let replacement ← getStr f "replacement"
  pure (.Naptr order preference flags services regexp replacement)

/-- Attempt to deserialize the `Sshfp` variant from a JSON object. -/
def trySshfp (f : List (String × Json)) : Option RecordValue := do
  let algorithm ← getNat f "algorithm"
  let fingerprint_type ← getNat f "fingerprint_type"
  let fingerprint ← getBytes f "fingerprint"
  pure (.Sshfp algorithm fingerprint_type fingerprint)

/-- Attempt to deserialize the `Svcb` variant from a JSON object. -/
def trySvcb (f : List (String × Json)) : Option RecordValue := do
  let priority ← getNat f "priority"
  let target ← getStr f "target"
  let params ← getStrList f "params"
  pure (.Svcb priority target params)

/-- Attempt to deserialize the `Tlsa` variant from a JSON object. -/
def tryTlsa (f : List (String × Json)) : Option RecordValue := do
  let cert_usage ← getNat f "cert_usage"
  let selector ← getNat f "selector"
  let matching_type ← getNat f "matching_type"
  let cert_data ← getBytes f "cert_data"
  pure (.Tlsa cert_usage selector matching_type cert_data)

/-- Attempt to deserialize the `Uri` variant from a JSON object. -/
def tryUri (f : List (String × Json)) : Option RecordValue := do
  let priority ← getNat f "priority"
  let weight ← getNat f "weight"
  let target ← getStr f "target"
  pure (.Uri priority weight target)

/-- First-success choice between two deserialization attempts, the model
of serde untagged falling through to the next variant. -/
def orTry (a b : Option RecordValue) : Option RecordValue :=
  match a with
  | some v => some v
  | none => b

/-- Embedding of the serde `Deserialize` derived for `types.rs`
`RecordValue` with `#[serde(untagged)]`: the variants are tried in
declaration order and the first success wins.  On a JSON string the order
is `Ip` (an `IpAddr` parse), then `Domain`, which accepts any string — so
the later string variants `Text` and `Other` can never be produced.  On a
JSON object the struct variants are tried in declaration order, each
matching by its required field names (unknown fields are ignored) — so
`Key` is shadowed by the identically-shaped earlier `Dnskey`, and `Svcb`
by `Https`. -/
def Json.toRecordValue : Json → Option RecordValue
  | .str s =>
      match parseIp s with
      | some ip => some (.Ip ip)
      | none => some (.Domain s)
  | .obj f =>
      orTry (tryMx f) (orTry (trySrv f) (orTry (trySoa f) (orTry (tryCaa f)
        (orTry (tryCert f) (orTry (tryDnskey f) (orTry (tryDs f)
        (orTry (tryHinfo f) (orTry (tryHttps f) (orTry (tryKey f)
        (orTry (tryLoc f) (orTry (tryNaptr f) (orTry (trySshfp f)
        (orTry (trySvcb f) (orTry (tryTlsa f) (tryUri f)))))))))))))))
  | _ => none

/-- Serde name of each `RecordType` variant under
`#[serde(rename_all = "UPPERCASE")]`. -/
def RecordType.serdeName : RecordType → String
  | .A => "A"
  | .Aaaa => "AAAA"
  | .Cname => "CNAME"
  | .Mx => "MX"
  | .Txt => "TXT"
  | .Ns => "NS"
  | .Soa => "SOA"
  | .Ptr => "PTR"
  | .Srv => "SRV"
  | .Afsdb => "AFSDB"
  | .Caa => "CAA"
  | .Cert => "CERT"
  | .Dname => "DNAME"
  | .Dnskey => "DNSKEY"
  | .Ds => "DS"
  | .Hinfo => "HINFO"
  | .Https => "HTTPS"
  | .Key => "KEY"
  | .Loc => "LOC"
  | .Naptr => "NAPTR"
  | .Nsec => "NSEC"
  | .Nsec3 => "NSEC3"
  | .Opt => "OPT"
  | .Rrsig => "RRSIG"
  | .Sshfp => "SSHFP"
  | .Svcb => "SVCB"
  | .Tlsa => "TLSA"
  | .Uri => "URI"

/-- Serde deserialization of a `RecordType` from its renamed variant
string. -/
def RecordType.ofSerdeName (s : String) : Option RecordType :=
  match s with
  | "A" => some .A
  | "AAAA" => some .Aaaa
  | "CNAME" => some .Cname
  | "MX" => some .Mx
  | "TXT" => some .Txt
  | "NS" => some .Ns
  | "SOA" => some .Soa
  | "PTR" => some .Ptr
  | "SRV" => some .Srv
  | "AFSDB" => some .Afsdb
  | "CAA" => some .Caa
  | "CERT" => some .Cert
  | "DNAME" => some .Dname
  | "DNSKEY" => some .Dnskey
  | "DS" => some .Ds
  | "HINFO" => some .Hinfo
  | "HTTPS" => some .Https
  | "KEY" => some .Key
  | "LOC" => some .Loc
  | "NAPTR" => some .Naptr
  | "NSEC" => some .Nsec
  | "NSEC3" => some .Nsec3
  | "OPT" => some .Opt
  | "RRSIG" => some .Rrsig
  | "SSHFP" => some .Sshfp
  | "SVCB" => some .Svcb
  | "TLSA" => some .Tlsa
  | "URI" => some .Uri
  | _ => none

/-- Serde name of each `ResponseCode` variant under
`#[serde(rename_all = "UPPERCASE")]`. -/
def ResponseCode.serdeName : ResponseCode → String
  | .NoError => "NOERROR"
  | .ServFail => "SERVFAIL"
  | .NxDomain => "NXDOMAIN"
  | .Refused => "REFUSED"
  | .FormErr => "FORMERR"
  | .NotImp => "NOTIMP"
  | .ServFailOther => "SERVFAILOTHER"

/-- Serde deserialization of a `ResponseCode` from its renamed variant
string. -/
def ResponseCode.ofSerdeName (s : String) : Option ResponseCode :=
  match s with
  | "NOERROR" => some .NoError
  | "SERVFAIL" => some .ServFail
  | "NXDOMAIN" => some .NxDomain
  | "REFUSED" => some .Refused
  | "FORMERR" => some .FormErr
  | "NOTIMP" => some .NotImp
  | "SERVFAILOTHER" => some .ServFailOther
  | _ => none

/-- Embedding of the serde `Serialize` derived for `types.rs`
`DnsRecord`: a JSON object with the Rust field names (`timestamp` is the
modelled `SystemTime` reading as a number, `query_time_ms` the `f64`
as a number). -/
def DnsRecord.toJson (r : DnsRecord) : Json :=
  .obj [("domain", .str r.domain),
    ("record_type", .str r.record_type.serdeName),
    ("value", r.value.toJson),
    ("ttl", jNat r.ttl),
    ("response_code", .str r.response_code.serdeName),
    ("resolver", .str r.resolver),
    ("timestamp", jNat r.timestamp),
    ("query_time_ms", .num r.query_time_ms)]

/-- Embedding of the serde `Deserialize` derived for `types.rs`
`DnsRecord`. -/
def Json.toDnsRecord : Json → Option DnsRecord
  | .obj f => do
      let domain ← getStr f "domain"
      let rtName ← getStr f "record_type"
      let record_type ← RecordType.ofSerdeName rtName
      let valueJson ← jGet f "value"
      let value ← valueJson.toRecordValue
      let ttl ← getNat f "ttl"
      let rcName ← getStr f "response_code"
      let response_code ← ResponseCode.ofSerdeName rcName
      let resolver ← getStr f "resolver"
      let timestamp ← getNat f "timestamp"
      let query_time_ms ← getRat f "query_time_ms"
      pure (DnsRecord.mk domain record_type value ttl response_code
        resolver timestamp query_time_ms)
  | _ => none

/-- The `RecordValue` variants whose untagged JSON encoding deserializes
back to the same variant: every variant except `Text`, `Key`, `Svcb` and
`Other` (each shadowed by an earlier variant of identical shape), with
`Ip` restricted to representable addresses and `Domain` to strings that
do not themselves parse as an IP address. -/
def RecordValue.roundTrips : RecordValue → Bool
  | .Ip ip => ip.wf
  | .Domain d => (parseIp d).isNone
  | .Text _ => false
  | .Key _ _ _ _ => false
  | .Svcb _ _ _ => false
  | .Other _ => false
  | _ => true

/-- Records contributed by one item to a batch result in
`ConcurrentProcessor::process_batch`: the unwrapped per-item result
(`handle_item` never returns an error). -/
def ConcurrentProcessor.itemContribution (o : ItemOutcome) : List DnsRecord :=
  match ConcurrentProcessor.handle_item o with
  | .ok records => records
  | .error _ => []

/-- Written to the specification (data-model section): whether a record
value's variant tag agrees with a record type — `A`/`AAAA` carry an IP
address, `CNAME`/`NS`/`PTR`/`DNAME` a domain name, `TXT` text, each
structured type its own variant, and `Other` is the fallback any type may
carry for payloads the parser does not fully decode.  The specification
asserts that `DnsRecord`'s constructor enforces this agreement; the
definition exists to compare that assertion with `DnsRecord::new`. -/
def specTagAgrees (rt : RecordType) (v : RecordValue) : Bool :=
  match rt, v with
  | .A, .Ip _ => true
  | .Aaaa, .Ip _ => true
  | .Cname, .Domain _ => true
  | .Ns, .Domain _ => true
  | .Ptr, .Domain _ => true
  | .Dname, .Domain _ => true
  | .Txt, .Text _ => true
  | .Mx, .Mx _ _ => true
  | .Srv, .Srv _ _ _ _ => true
  | .Soa, .Soa _ _ _ _ _ _ _ => true
  | .Caa, .Caa _ _ _ => true
  | .Cert, .Cert _ _ _ _ => true
  | .Dnskey, .Dnskey _ _ _ _ => true
  | .Ds, .Ds _ _ _ _ => true
  | .Hinfo, .Hinfo _ _ => true
  | .Https, .Https _ _ _ => true
  | .Key, .Key _ _ _ _ => true
  | .Loc, .Loc _ _ _ _ _ _ _ => true
  | .Naptr, .Naptr _ _ _ _ _ _ => true
  | .Sshfp, .Sshfp _ _ _ => true
  | .Svcb, .Svcb _ _ _ => true
  | .Tlsa, .Tlsa _ _ _ _ => true
  | .Uri, .Uri _ _ _ => true
  | _, .Other _ => true
  | _, _ => false

/-- Helper: `handle_item` never produces an error; it returns exactly the
item's contribution. -/
theorem ConcurrentProcessor.handle_item_ok (o : ItemOutcome) :
    ConcurrentProcessor.handle_item o =
      .ok (ConcurrentProcessor.itemContribution o) := by
  cases o <;> rfl

/-- C3 counterexample: requesting the `URI` record type converts it to
the wire type `A` — a silent substitution of a requested type that is not
`A`, contradicting the claim that every accepted record type is either
mapped to its own wire type or rejected at request time. -/
theorem to_hickory_substitutes_a_cx :
    RecordType.to_hickory RecordType.Uri = HRecordType.A
    ∧ RecordType.Uri ≠ RecordType.A :=
  ⟨rfl, by decide⟩

/-- C3 (amended): `RecordType::to_hickory` maps every record type
explicitly except `Afsdb`, `Cert`, `Loc` and `Uri`, which it silently
substitutes with the wire type `A`; nothing is rejected at request time.
Formally, the conversion yields wire type `A` exactly for the requested
type `A` and those four fallback types. -/
theorem to_hickory_a_fallback_characterization (rt : RecordType) :
    RecordType.to_hickory rt = HRecordType.A ↔
      (rt = RecordType.A ∨ rt = RecordType.Afsdb ∨ rt = RecordType.Cert
        ∨ rt = RecordType.Loc ∨ rt = RecordType.Uri) := by
  cases rt <;> decide

/-- Witness for the amended C3 theorem at the concrete types `Uri` and
`Mx`. -/
theorem to_hickory_a_fallback_characterization_witness :
    (RecordType.to_hickory RecordType.Uri = HRecordType.A)
    ∧ ¬(RecordType.to_hickory RecordType.Mx = HRecordType.A) :=
  ⟨(to_hickory_a_fallback_characterization RecordType.Uri).mpr
      (Or.inr (Or.inr (Or.inr (Or.inr rfl)))),
    fun h =>
      by simpa using (to_hickory_a_fallback_characterization RecordType.Mx).mp h⟩

/-- C9 counterexample: `DnsRecord::new` happily produces a record whose
`record_type` is `A` while its value is the `Text` variant — the
constructor does not enforce agreement between the record type and the
value's variant tag. -/
theorem dnsrecord_new_no_enforcement_cx :
    (DnsRecord.new 0 "example.com" RecordType.A (.Text "mismatch") 300
        ResponseCode.NoError "8.8.8.8:53" 1).record_type = RecordType.A
    ∧ (DnsRecord.new 0 "example.com" RecordType.A (.Text "mismatch") 300
        ResponseCode.NoError "8.8.8.8:53" 1).value =
          RecordValue.Text "mismatch"
    ∧ specTagAgrees
        (DnsRecord.new 0 "example.com" RecordType.A (.Text "mismatch") 300
          ResponseCode.NoError "8.8.8.8:53" 1).record_type
        (DnsRecord.new 0 "example.com" RecordType.A (.Text "mismatch") 300
          ResponseCode.NoError "8.8.8.8:53" 1).value = false :=
  ⟨rfl, rfl, rfl⟩

/-- C9 (amended): `DnsRecord::new` stores every argument verbatim — the
record type and value of the produced record are exactly the ones passed
in, with no validation or alteration, so the type/value agreement is a
convention of the call sites, not an invariant enforced by the
constructor. -/
theorem dnsrecord_new_stores_verbatim (now : Nat) (domain : String)
    (rt : RecordType) (v : RecordValue) (ttl : Nat) (rc : ResponseCode)
    (resolver : String) (qt : ℚ) :
    (DnsRecord.new now domain rt v ttl rc resolver qt).domain = domain
    ∧ (DnsRecord.new now domain rt v ttl rc resolver qt).record_type = rt
    ∧ (DnsRecord.new now domain rt v ttl rc resolver qt).value = v
    ∧ (DnsRecord.new now domain rt v ttl rc resolver qt).ttl = ttl
    ∧ (DnsRecord.new now domain rt v ttl rc resolver qt).response_code = rc
    ∧ (DnsRecord.new now domain rt v ttl rc resolver qt).resolver = resolver
    ∧ (DnsRecord.new now domain rt v ttl rc resolver qt).timestamp = now
    ∧ (DnsRecord.new now domain rt v ttl rc resolver qt).query_time_ms = qt :=
  ⟨rfl, rfl, rfl, rfl, rfl, rfl, rfl, rfl⟩

/-- C7: `process_batch` returns `Ok` for every combination of item
outcomes — the batch result is the concatenation of the per-item
contributions, and an item whose operation failed or timed out
contributes the empty record list. -/
theorem process_batch_item_failures_confined (outcomes : List ItemOutcome) :
    ConcurrentProcessor.process_batch outcomes =
      .ok (outcomes.foldl
        (fun acc o => acc ++ ConcurrentProcessor.itemContribution o) [])
    ∧ (∀ e, ConcurrentProcessor.itemContribution (.failure e) = [])
    ∧ ConcurrentProcessor.itemContribution .timedOut = [] := by
  refine ⟨?_, fun e => rfl, rfl⟩
  simp only [ConcurrentProcessor.process_batch]
  rw [List.foldl_map]
  congr 1
  apply List.foldl_ext
  intro acc o _
  cases o <;> rfl

/-- C1 counterexample: when the primary resolver exceeds its deadline the
pool returns `DnsxError::Timeout` immediately — the backup resolvers are
never attempted — even though a backup resolver in the list would have
answered (the second conjunct evaluates the backup walk that
`ResolverPool::query` never reaches on this path). -/
theorem resolver_pool_primary_timeout_cx :
    ResolverPool.query "8.8.8.8:53" 5 true ResolverOutcome.timedOut
        [⟨"1.1.1.1:53", .success [⟨.a ⟨198, 51, 100, 7⟩, 300⟩]⟩]
      = .error (DnsxError.Timeout 5)
    ∧ ResolverPool.try_backup_resolvers
        [⟨"1.1.1.1:53", .success [⟨.a ⟨198, 51, 100, 7⟩, 300⟩]⟩]
      = .ok ([⟨.a ⟨198, 51, 100, 7⟩, 300⟩], "backup-resolver") :=
  ⟨rfl, rfl⟩

/-- C1 (amended): the pool falls through to the backup resolvers in list
order only when the primary returns a lookup error; a deadline exceeded
on the primary yields the `Timeout` error directly without attempting any
backup; and `Resolve("All resolvers failed")` arises from the backup walk
exactly when no backup resolver succeeds. -/
theorem resolver_pool_failover_behavior (addr : String) (tmo : Nat)
    (backups : List BackupResolver) (lookup : List WireRecord) (e : String) :
    ResolverPool.query addr tmo true (.success lookup) backups
        = .ok (lookup, addr)
    ∧ ResolverPool.query addr tmo true (.failure e) backups
        = ResolverPool.try_backup_resolvers backups
    ∧ ResolverPool.query addr tmo true .timedOut backups
        = .error (DnsxError.timeout tmo)
    ∧ (ResolverPool.try_backup_resolvers backups
        = .error (DnsxError.resolve "All resolvers failed")
        ↔ ∀ b ∈ backups, ∀ l, b.outcome ≠ ResolverOutcome.success l) := by
  refine ⟨rfl, rfl, rfl, ?_⟩
  induction backups with
  | nil => simp [ResolverPool.try_backup_resolvers, DnsxError.resolve]
  | cons b rest ih =>
      cases hb : b.outcome with
      | success l =>
          simp only [ResolverPool.try_backup_resolvers, hb]
          constructor
          · intro h
            exact absurd h (by simp)
          · intro h
            exact absurd (h b (by simp) l) (by simp [hb])
      | failure msg =>
          simp only [ResolverPool.try_backup_resolvers, hb, ih,
            List.mem_cons]
          constructor
          · intro h b2 hb2
            cases hb2 with
            | inl heq => subst heq; simp [hb]
            | inr hmem => exact h b2 hmem
          · intro h b2 hb2
            exact h b2 (Or.inr hb2)
      | timedOut =>
          simp only [ResolverPool.try_backup_resolvers, hb, ih,
            List.mem_cons]
          constructor
          · intro h b2 hb2
            cases hb2 with
            | inl heq => subst heq; simp [hb]
            | inr hmem => exact h b2 hmem
          · intro h b2 hb2
            exact h b2 (Or.inr hb2)

/-- Witness for the amended C1 theorem at a concrete pool: a primary
lookup error falls through to a backup list whose resolvers all fail,
producing the exhaustion error. -/
theorem resolver_pool_failover_behavior_witness :
    ResolverPool.query "8.8.8.8:53" 5 true (.failure "refused")
        [⟨"1.1.1.1:53", .failure "refused"⟩, ⟨"9.9.9.9:53", .timedOut⟩]
      = ResolverPool.try_backup_resolvers
        [⟨"1.1.1.1:53", .failure "refused"⟩, ⟨"9.9.9.9:53", .timedOut⟩]
    ∧ ResolverPool.try_backup_resolvers
        [⟨"1.1.1.1:53", .failure "refused"⟩, ⟨"9.9.9.9:53", .timedOut⟩]
      = .error (DnsxError.resolve "All resolvers failed") :=
  ⟨(resolver_pool_failover_behavior "8.8.8.8:53" 5
      [⟨"1.1.1.1:53", .failure "refused"⟩, ⟨"9.9.9.9:53", .timedOut⟩]
      [] "refused").2.1,
    (resolver_pool_failover_behavior "8.8.8.8:53" 5
      [⟨"1.1.1.1:53", .failure "refused"⟩, ⟨"9.9.9.9:53", .timedOut⟩]
      [] "refused").2.2.2.mpr (by simp)⟩

/-- C2 counterexample: a query answered by a backup resolver returns the
fixed identity string `"backup-resolver"`, not the string form of the
backup's parsed `host:port` address. -/
theorem backup_resolver_identity_cx :
    ResolverPool.try_backup_resolvers
        [⟨"1.1.1.1:53", .success [⟨.a ⟨198, 51, 100, 7⟩, 300⟩]⟩]
      = .ok ([⟨.a ⟨198, 51, 100, 7⟩, 300⟩], "backup-resolver")
    ∧ "backup-resolver" ≠ "1.1.1.1:53" :=
  ⟨rfl, by decide⟩

/-- C2 (amended): whichever backup resolver produces the answer, the
resolver identity returned with the records is always the fixed string
`"backup-resolver"` (the parsed backup addresses are stored in the pool
but never consulted). -/
theorem backup_resolver_identity_fixed (backups : List BackupResolver)
    (lookup : List WireRecord) (s : String)
    (h : ResolverPool.try_backup_resolvers backups = .ok (lookup, s)) :
    s = "backup-resolver" := by
  induction backups with
  | nil => simp [ResolverPool.try_backup_resolvers] at h
  | cons b rest ih =>
      cases hb : b.outcome with
      | success l =>
          simp [ResolverPool.try_backup_resolvers, hb] at h
          exact h.2.symm
      | failure msg =>
          simp only [ResolverPool.try_backup_resolvers, hb] at h
          exact ih h
      | timedOut =>
          simp only [ResolverPool.try_backup_resolvers, hb] at h
          exact ih h

/-- Witness for the amended C2 theorem at a concrete backup list whose
second resolver answers. -/
theorem backup_resolver_identity_fixed_witness :
    ResolverPool.try_backup_resolvers
        [⟨"1.1.1.1:53", .timedOut⟩, ⟨"9.9.9.9:53", .success []⟩]
      = .ok ([], "backup-resolver")
    ∧ ("backup-resolver" : String) = "backup-resolver" :=
  ⟨rfl,
    backup_resolver_identity_fixed
      [⟨"1.1.1.1:53", .timedOut⟩, ⟨"9.9.9.9:53", .success []⟩]
      [] "backup-resolver" rfl⟩

/-- C10: the rate limiter computes its interval as
`1_000_000 / requests_per_second` microseconds by integer division; for
every rate above 1,000,000 the interval is zero and `wait` returns
immediately without sleeping or touching `last_request` (so such rates
are not limited at all); and for every rate that does not divide
1,000,000 the enforced minimum spacing is strictly smaller than `1/r`
seconds. -/
theorem rate_limiter_integer_division (r : Nat) (hr : 0 < r) :
    RateLimiter.interval_us r = 1000000 / r
    ∧ (1000000 < r → RateLimiter.interval_us r = 0
        ∧ ∀ last now, RateLimiter.wait (RateLimiter.interval_us r) last now
            = ⟨0, none⟩)
    ∧ (¬ r ∣ 1000000 →
        (RateLimiter.interval_us r : ℚ) / 1000000 < 1 / r) := by
  have hint : RateLimiter.interval_us r = 1000000 / r := by
    simp [RateLimiter.interval_us, hr]
  refine ⟨hint, ?_, ?_⟩
  · intro hbig
    have h0 : RateLimiter.interval_us r = 0 := by
      rw [hint]
      exact Nat.div_eq_of_lt hbig
    refine ⟨h0, fun last now => ?_⟩
    rw [h0]
    rfl
  · intro hdvd
    rw [hint]
    have hmul : (1000000 / r) * r < 1000000 := by
      rcases Nat.lt_or_ge ((1000000 / r) * r) 1000000 with h | h
      · exact h
      · exfalso
        have hle : (1000000 / r) * r ≤ 1000000 := Nat.div_mul_le_self _ _
        have heq : (1000000 / r) * r = 1000000 := Nat.le_antisymm hle h
        have h2 : r * (1000000 / r) = 1000000 := by
          rw [Nat.mul_comm]
          exact heq
        exact hdvd ⟨1000000 / r, h2.symm⟩
    have hr' : (0 : ℚ) < r := by exact_mod_cast hr
    rw [div_lt_div_iff₀ (by norm_num) hr']
    calc ((1000000 / r : Nat) : ℚ) * r = (((1000000 / r) * r : Nat) : ℚ) := by
          push_cast
          ring
      _ < 1000000 := by exact_mod_cast hmul
      _ = 1 * 1000000 := by ring

/-- Witness for C10 at the concrete rates 2,000,000 (above the
microsecond resolution: no limiting at all) and 3 (not dividing
1,000,000: spacing strictly below a third of a second). -/
theorem rate_limiter_integer_division_witness :
    RateLimiter.interval_us 2000000 = 0
    ∧ RateLimiter.wait (RateLimiter.interval_us 2000000) 5 7 = ⟨0, none⟩
    ∧ (RateLimiter.interval_us 3 : ℚ) / 1000000 < 1 / 3 :=
  ⟨((rate_limiter_integer_division 2000000 (by norm_num)).2.1
      (by norm_num)).1,
    ((rate_limiter_integer_division 2000000 (by norm_num)).2.1
      (by norm_num)).2 5 7,
    by
      have h := (rate_limiter_integer_division 3 (by norm_num)).2.2
        (by decide)
      simpa using h⟩

/-- C6 counterexample: a successful lookup that decodes to zero resource
records yields one synthetic record whose value is
`Other("No records found")` — not `Other("no records")` as the claim
states. -/
theorem query_engine_synthetic_string_cx :
    QueryEngine.query 0 0 "example.com" RecordType.A (.ok ([], "8.8.8.8:53"))
      = .ok [DnsRecord.new 0 "example.com" RecordType.A
          (.Other "No records found") 0 ResponseCode.NoError "8.8.8.8:53" 0]
    ∧ RecordValue.Other "No records found" ≠ RecordValue.Other "no records" :=
  ⟨rfl, by decide⟩

/-- C6 (amended): on a successful lookup the engine's output is never
empty, and when the lookup decodes to zero resource records the output is
exactly one synthetic record with value `Other("No records found")`,
ttl 0 and response code `NoError`. -/
theorem query_engine_nonempty_output (now : Nat) (qt : ℚ) (domain : String)
    (rt : RecordType) (lookup : List WireRecord) (addr : String) :
    (∃ rs, QueryEngine.query now qt domain rt (.ok (lookup, addr)) = .ok rs
      ∧ rs ≠ [])
    ∧ (lookup = [] →
        QueryEngine.query now qt domain rt (.ok (lookup, addr))
          = .ok [DnsRecord.new now domain rt (.Other "No records found") 0
              ResponseCode.NoError addr qt]) := by
  constructor
  · cases lookup with
    | nil =>
        exact ⟨[DnsRecord.new now domain rt (.Other "No records found") 0
          ResponseCode.NoError addr qt], rfl, by simp⟩
    | cons w rest =>
        refine ⟨(w :: rest).map (fun w2 =>
          DnsRecord.new now domain rt (parse_rdata w2.rdata) w2.ttl
            ResponseCode.NoError addr qt), ?_, by simp⟩
        simp [QueryEngine.query]
  · intro h
    subst h
    rfl

/-- Witness for the amended C6 theorem at a concrete empty lookup. -/
theorem query_engine_nonempty_output_witness :
    QueryEngine.query 7 2 "example.com" RecordType.Mx (.ok ([], "1.1.1.1:53"))
      = .ok [DnsRecord.new 7 "example.com" RecordType.Mx
          (.Other "No records found") 0 ResponseCode.NoError "1.1.1.1:53" 2] :=
  (query_engine_nonempty_output 7 2 "example.com" RecordType.Mx []
    "1.1.1.1:53").2 rfl

/-- Helper: looking up the key just inserted finds exactly the inserted
entry. -/
theorem CacheMap.lookup_insert_self (key : CacheKey) (v : CachedResponse)
    (m : CacheMap) :
    CacheMap.lookup key (CacheMap.insert key v m) = some v := by
  induction m with
  | nil => simp [CacheMap.insert, CacheMap.lookup]
  | cons kv rest ih =>
      by_cases h : kv.1 = key
      · simpa [CacheMap.insert, List.filter_cons, h] using ih
      · simpa [CacheMap.insert, List.filter_cons, h, CacheMap.lookup] using ih

/-- C4: after `put(K, R, ttl)` at monotonic time `now`, a `get(K)` at any
later time `t` returns `R` while `t - now < ttl`, returns nothing once
`ttl ≤ t - now`, and the entry itself remains in the map either way
(`get` takes only the read lock and never evicts). -/
theorem cache_get_after_put (max_size default_ttl now t : Nat)
    (key : CacheKey) (records : List DnsRecord) (ttl : Nat) (m : CacheMap)
    (_hmono : now ≤ t) :
    (t - now < ttl →
      DnsCache.get t key
        (DnsCache.put max_size default_ttl now key records (some ttl) m)
        = some records)
    ∧ (ttl ≤ t - now →
      DnsCache.get t key
        (DnsCache.put max_size default_ttl now key records (some ttl) m)
        = none)
    ∧ CacheMap.lookup key
        (DnsCache.put max_size default_ttl now key records (some ttl) m)
      = some (CachedResponse.new now records ttl) := by
  have hlook : CacheMap.lookup key
      (DnsCache.put max_size default_ttl now key records (some ttl) m)
      = some (CachedResponse.new now records ttl) := by
    simp only [DnsCache.put, Option.getD_some]
    exact CacheMap.lookup_insert_self key _ _
  refine ⟨?_, ?_, hlook⟩
  · intro hvalid
    simp [DnsCache.get, hlook, CachedResponse.is_valid, CachedResponse.new,
      hvalid]
  · intro hexpired
    simp [DnsCache.get, hlook, CachedResponse.is_valid, CachedResponse.new,
      Nat.not_lt.mpr hexpired]

/-- Witness for C4 at a concrete key, both before and after expiry. -/
theorem cache_get_after_put_witness :
    DnsCache.get 50 ⟨"example.com", RecordType.A⟩
        (DnsCache.put 100 300 0 ⟨"example.com", RecordType.A⟩ [] (some 60) [])
      = some []
    ∧ DnsCache.get 60 ⟨"example.com", RecordType.A⟩
        (DnsCache.put 100 300 0 ⟨"example.com", RecordType.A⟩ [] (some 60) [])
      = none :=
  ⟨(cache_get_after_put 100 300 0 50 ⟨"example.com", RecordType.A⟩ [] 60 []
      (by norm_num)).1 (by norm_num),
    (cache_get_after_put 100 300 0 60 ⟨"example.com", RecordType.A⟩ [] 60 []
      (by norm_num)).2.1 (by norm_num)⟩

/-- Helper: inserting grows the association list by at most one entry. -/
theorem CacheMap.size_insert_le (key : CacheKey) (v : CachedResponse)
    (m : CacheMap) :
    CacheMap.size (CacheMap.insert key v m) ≤ CacheMap.size m + 1 := by
  simp only [CacheMap.insert, CacheMap.size, List.length_append,
    List.length_cons, List.length_nil]
  have := List.length_filter_le (fun kv => decide (kv.1 ≠ key)) m
  omega

/-- Helper: one `put` preserves the capacity bound when the capacity is
at least one. -/
theorem DnsCache.put_size_le (max_size default_ttl : Nat)
    (hmax : 1 ≤ max_size) (now : Nat) (key : CacheKey)
    (records : List DnsRecord) (ttl : Option Nat) (m : CacheMap)
    (hm : CacheMap.size m ≤ max_size) :
    CacheMap.size (DnsCache.put max_size default_ttl now key records ttl m)
      ≤ max_size := by
  simp only [DnsCache.put]
  set m1 := if max_size ≤ CacheMap.size m
    then DnsCache.cleanup_expired now m else m with hm1
  have h1 : CacheMap.size m1 ≤ max_size := by
    rw [hm1]
    split
    · have := List.length_filter_le
        (fun kv => CachedResponse.is_valid now kv.2) m
      simp only [DnsCache.cleanup_expired, CacheMap.size] at *
      omega
    · exact hm
  set m2 := if max_size ≤ CacheMap.size m1
    then DnsCache.evict_oldest m1 else m1 with hm2
  have h2 : CacheMap.size m2 + 1 ≤ max_size + 1 := by
    rw [hm2]
    split
    · simp only [DnsCache.evict_oldest, CacheMap.size, List.length_drop]
      have hk : 1 ≤ Nat.max (CacheMap.size m1 / 10) 1 := Nat.le_max_right _ _
      simp only [CacheMap.size] at h1 hk ⊢
      omega
    · omega
  have h3 : CacheMap.size m2 ≤ max_size - 1 ∨ ¬ max_size ≤ CacheMap.size m1 := by
    rw [hm2]
    split
    · left
      simp only [DnsCache.evict_oldest, CacheMap.size, List.length_drop]
      have hk : 1 ≤ Nat.max (CacheMap.size m1 / 10) 1 := Nat.le_max_right _ _
      simp only [CacheMap.size] at h1 hk ⊢
      omega
    · right
      omega
  have hins := CacheMap.size_insert_le key
    (CachedResponse.new now records (ttl.getD default_ttl)) m2
  rcases h3 with h3 | h3
  · omega
  · have : CacheMap.size m2 = CacheMap.size m1 := by
      rw [hm2, if_neg h3]
    omega

/-- C5: with capacity `max_size ≥ 1` and no concurrent writers, a single
`put` keeps the entry count at or below `max_size` whenever it was, and
consequently the count is at most `max_size` after every `put` of any
finite sequence replayed from the empty cache. -/
theorem cache_capacity_bound (max_size default_ttl : Nat)
    (hmax : 1 ≤ max_size) :
    (∀ now key records ttl m, CacheMap.size m ≤ max_size →
      CacheMap.size (DnsCache.put max_size default_ttl now key records ttl m)
        ≤ max_size)
    ∧ ∀ ops : List PutOp,
        CacheMap.size (DnsCache.runPuts max_size default_ttl ops [])
          ≤ max_size := by
  constructor
  · intro now key records ttl m hm
    exact DnsCache.put_size_le max_size default_ttl hmax now key records
      ttl m hm
  · intro ops
    have haux : ∀ (l : List PutOp) (m : CacheMap),
        CacheMap.size m ≤ max_size →
        CacheMap.size (DnsCache.runPuts max_size default_ttl l m)
          ≤ max_size := by
      intro l
      induction l with
      | nil => intro m hm; exact hm
      | cons op rest ih =>
          intro m hm
          exact ih _ (DnsCache.put_size_le max_size default_ttl hmax
            op.now op.key op.records op.ttl m hm)
    exact haux ops [] (by simp [CacheMap.size])

/-- Witness for C5: a concrete sequence of three puts of distinct keys
into a cache of capacity 2 stays within capacity. -/
theorem cache_capacity_bound_witness :
    CacheMap.size (DnsCache.runPuts 2 300
      [⟨0, ⟨"a.example", RecordType.A⟩, [], none⟩,
        ⟨1, ⟨"b.example", RecordType.A⟩, [], none⟩,
        ⟨2, ⟨"c.example", RecordType.A⟩, [], none⟩] []) ≤ 2 :=
  (cache_capacity_bound 2 300 (by norm_num)).2 _

/-- Helper: `digitVal` inverts `digitChar` on digits below 16. -/
theorem digitVal_digitChar : ∀ d, d < 16 → digitVal (digitChar d) = some d := by
  decide

/-- Helper: digit characters are never a dot. -/
theorem digitChar_ne_dot : ∀ d, d < 16 → digitChar d ≠ '.' := by
  decide

/-- Helper: digit characters are never a colon. -/
theorem digitChar_ne_colon : ∀ d, d < 16 → digitChar d ≠ ':' := by
  decide

/-- Helper: the only digit character equal to `0` is the digit zero. -/
theorem digitChar_eq_zero_iff : ∀ d, d < 16 → (digitChar d = '0' ↔ d = 0) := by
  decide

/-- Helper: `optionMapM digitVal` recovers the digit list from its
rendering. -/
theorem mapM_digitVal_map_digitChar (L : List Nat) (h : ∀ d ∈ L, d < 16) :
    optionMapM digitVal (L.map digitChar) = some L := by
  induction L with
  | nil => rfl
  | cons d rest ih =>
      have hd : d < 16 := h d (List.mem_cons_self d rest)
      have hrest := ih (fun x hx => h x (List.mem_cons_of_mem d hx))
      simp [optionMapM, digitVal_digitChar d hd, hrest]

/-- Helper: a failing element makes `optionMapM` fail. -/
theorem mapM_eq_none_of_mem {α β : Type} (f : α → Option β) {c : α}
    {cs : List α} (hmem : c ∈ cs) (hc : f c = none) :
    optionMapM f cs = none := by
  induction cs with
  | nil => cases hmem
  | cons x rest ih =>
      rcases List.mem_cons.mp hmem with h | h
      · subst h
        simp [optionMapM, hc]
      · cases hx : f x with
        | none => simp [optionMapM, hx]
        | some y => simp [optionMapM, hx, ih h]

/-- Helper: folding most-significant-first digit accumulation over the
reversed little-endian digit list computes `Nat.ofDigits`. -/
theorem foldl_reverse_ofDigits (b : Nat) (L : List Nat) :
    List.foldl (fun acc d => acc * b + d) 0 L.reverse = Nat.ofDigits b L := by
  induction L with
  | nil => rfl
  | cons d rest ih =>
      rw [List.reverse_cons, List.foldl_append, ih, Nat.ofDigits_cons]
      simp [Nat.mul_comm]
      omega

/-- Helper: `parseBase` inverts `natToBase` for bases between 2 and 16. -/
theorem parseBase_natToBase (b n : Nat) (hb : 1 < b) (hb16 : b ≤ 16) :
    parseBase b (natToBase b n) = some n := by
  by_cases hn : n = 0
  · subst hn
    have h1 : optionMapM digitVal ['0'] = some [0] := rfl
    have hb0 : 0 < b := by omega
    simp [natToBase, parseBase, h1, hb0]
  · have hdig : ∀ d ∈ Nat.digits b n, d < b :=
      fun d hd => Nat.digits_lt_base hb hd
    have hdig16 : ∀ d ∈ (Nat.digits b n).reverse, d < 16 :=
      fun d hd => lt_of_lt_of_le (hdig d (List.mem_reverse.mp hd)) hb16
    have hne : Nat.digits b n ≠ [] := Nat.digits_ne_nil_iff_ne_zero.mpr hn
    have hmap : ((Nat.digits b n).map digitChar).reverse
        = ((Nat.digits b n).reverse).map digitChar := by
      rw [List.map_reverse]
    have hmapm := mapM_digitVal_map_digitChar (Nat.digits b n).reverse hdig16
    have hall : ((Nat.digits b n).reverse).all (fun d => decide (d < b)) = true := by
      rw [List.all_eq_true]
      intro d hd
      exact decide_eq_true (hdig d (List.mem_reverse.mp hd))
    have hempty : (((Nat.digits b n).map digitChar).reverse).isEmpty = false := by
      simp [List.isEmpty_iff, hne]
    rw [natToBase, if_neg hn, parseBase, hempty]
    simp only [Bool.false_eq_true, if_false, hmap, hmapm]
    rw [if_pos hall]
    rw [foldl_reverse_ofDigits, Nat.ofDigits_digits]

/-- Helper: the canonical decimal rendering has no leading zero (its
first character is the most significant digit, which is nonzero for a
nonzero number). -/
theorem natToBase_no_leading_zero (b n : Nat) (hb : 1 < b) (hb16 : b ≤ 16) :
    ¬(1 < (natToBase b n).length
      ∧ (natToBase b n).head? = some '0') := by
  by_cases hn : n = 0
  · subst hn
    simp [natToBase]
  · rintro ⟨hlen, hhead⟩
    have hne : Nat.digits b n ≠ [] := Nat.digits_ne_nil_iff_ne_zero.mpr hn
    rcases List.eq_nil_or_concat' (Nat.digits b n) with h0 | ⟨L, dl, hLd⟩
    · exact hne h0
    · have hdl16 : dl < 16 := by
        have : dl ∈ Nat.digits b n := by
          rw [hLd]
          exact List.mem_append_right L (List.mem_singleton.mpr rfl)
        exact lt_of_lt_of_le (Nat.digits_lt_base hb this) hb16
      have hdl0 : dl ≠ 0 := by
        have hgl := Nat.getLast_digit_ne_zero b hn
        have h2 : (Nat.digits b n).getLast? = some dl := by
          rw [hLd, List.getLast?_append_cons]
          rfl
        have h3 : (Nat.digits b n).getLast? = some ((Nat.digits b n).getLast
            (Nat.digits_ne_nil_iff_ne_zero.mpr hn)) :=
          List.getLast?_eq_getLast_of_ne_nil _
        rw [h3] at h2
        injection h2 with h4
        exact h4 ▸ hgl
      have hhead2 : (natToBase b n).head? = some (digitChar dl) := by
        rw [natToBase, if_neg hn, hLd]
        simp
      rw [hhead2] at hhead
      have : digitChar dl = '0' := by
        injection hhead
      exact hdl0 ((digitChar_eq_zero_iff dl hdl16).mp this)

/-- Helper: `parseOctet` inverts the canonical decimal rendering of an
octet value. -/
theorem parseOctet_natToBase (n : Nat) (hn : n ≤ 255) :
    parseOctet (natToBase 10 n) = some n := by
  rw [parseOctet,
    if_neg (natToBase_no_leading_zero 10 n (by norm_num) (by norm_num)),
    parseBase_natToBase 10 n (by norm_num) (by norm_num)]
  simp [hn]

/-- Helper: `parseSeg` inverts the canonical hexadecimal rendering of a
16-bit segment value. -/
theorem parseSeg_natToBase (n : Nat) (hn : n < 65536) :
    parseSeg (natToBase 16 n) = some n := by
  have hlen : (natToBase 16 n).length ≤ 4 := by
    by_cases h0 : n = 0
    · subst h0
      simp [natToBase]
    · rw [natToBase, if_neg h0]
      simp only [List.length_reverse, List.length_map]
      rw [Nat.digits_len 16 n (by norm_num) h0]
      have : Nat.log 16 n < 4 :=
        Nat.log_lt_of_lt_pow h0 (by norm_num at hn ⊢; omega)
      omega
  rw [parseSeg, if_pos hlen, parseBase_natToBase 16 n (by norm_num) (by norm_num)]

/-- Helper: splitting a separator-free run yields the single group. -/
theorem splitOnChar_of_not_mem (sep : Char) (cs : List Char)
    (h : sep ∉ cs) : splitOnChar sep cs = [cs] := by
  induction cs with
  | nil => rfl
  | cons c rest ih =>
      have hc : c ≠ sep := fun hceq => h (hceq ▸ List.mem_cons_self c rest)
      have hrest : sep ∉ rest := fun hmem => h (List.mem_cons_of_mem c hmem)
      simp [splitOnChar, hc, ih hrest]

/-- Helper: splitting past a separator-free prefix peels off that prefix
as the first group. -/
theorem splitOnChar_append_sep (sep : Char) (xs ys : List Char)
    (h : sep ∉ xs) :
    splitOnChar sep (xs ++ sep :: ys) = xs :: splitOnChar sep ys := by
  induction xs with
  | nil => simp [splitOnChar]
  | cons x rest ih =>
      have hx : x ≠ sep := fun hxeq => h (hxeq ▸ List.mem_cons_self x rest)
      have hrest : sep ∉ rest := fun hmem => h (List.mem_cons_of_mem x hmem)
      simp only [List.cons_append, splitOnChar, if_neg hx, List.append_eq]
      rw [ih hrest]

/-- Helper: `splitOnChar` inverts `joinSep` on separator-free groups. -/
theorem splitOnChar_joinSep (sep : Char) (parts : List (List Char))
    (h : ∀ p ∈ parts, sep ∉ p) (hne : parts ≠ []) :
    splitOnChar sep (joinSep sep parts) = parts := by
  induction parts with
  | nil => exact absurd rfl hne
  | cons p rest ih =>
      cases rest with
      | nil =>
          simp only [joinSep]
          exact splitOnChar_of_not_mem sep p (h p (List.mem_cons_self p []))
      | cons q rest2 =>
          have hjoin : joinSep sep (p :: q :: rest2)
              = p ++ sep :: joinSep sep (q :: rest2) := rfl
          rw [hjoin,
            splitOnChar_append_sep sep p _ (h p (List.mem_cons_self p _)),
            ih (fun x hx => h x (List.mem_cons_of_mem p hx))
              (List.cons_ne_nil q rest2)]

/-- Helper: every character of a joined list is the separator or comes
from one of the groups. -/
theorem mem_joinSep (sep : Char) (parts : List (List Char)) (c : Char)
    (h : c ∈ joinSep sep parts) : c = sep ∨ ∃ p ∈ parts, c ∈ p := by
  induction parts with
  | nil => cases h
  | cons p rest ih =>
      cases rest with
      | nil =>
          simp only [joinSep] at h
          exact Or.inr ⟨p, List.mem_cons_self p [], h⟩
      | cons q rest2 =>
          have hjoin : joinSep sep (p :: q :: rest2)
              = p ++ sep :: joinSep sep (q :: rest2) := rfl
          rw [hjoin] at h
          rcases List.mem_append.mp h with h1 | h1
          · exact Or.inr ⟨p, List.mem_cons_self p _, h1⟩
          · rcases List.mem_cons.mp h1 with h2 | h2
            · exact Or.inl h2
            · rcases ih h2 with h3 | ⟨p2, hp2, hc⟩
              · exact Or.inl h3
              · exact Or.inr ⟨p2, List.mem_cons_of_mem p hp2, hc⟩

/-- Helper: every character of a canonical base rendering is a digit
character. -/
theorem mem_natToBase (b n : Nat) (c : Char) (hb : 1 < b) (hb16 : b ≤ 16)
    (h : c ∈ natToBase b n) : ∃ d, d < 16 ∧ c = digitChar d := by
  by_cases hn : n = 0
  · subst hn
    have h2 : c ∈ ['0'] := by simpa [natToBase] using h
    have h3 : c = '0' := List.mem_singleton.mp h2
    exact ⟨0, by norm_num, by rw [h3]; rfl⟩
  · rw [natToBase, if_neg hn] at h
    rw [List.mem_reverse] at h
    rcases List.mem_map.mp h with ⟨d, hd, hcd⟩
    exact ⟨d, lt_of_lt_of_le (Nat.digits_lt_base hb hd) hb16, hcd.symm⟩

/-- Helper: no dot occurs in a canonical base rendering. -/
theorem dot_not_mem_natToBase (b n : Nat) (hb : 1 < b) (hb16 : b ≤ 16) :
    '.' ∉ natToBase b n := by
  intro h
  rcases mem_natToBase b n '.' hb hb16 h with ⟨d, hd, hcd⟩
  exact digitChar_ne_dot d hd hcd.symm

/-- Helper: no colon occurs in a canonical base rendering. -/
theorem colon_not_mem_natToBase (b n : Nat) (hb : 1 < b) (hb16 : b ≤ 16) :
    ':' ∉ natToBase b n := by
  intro h
  rcases mem_natToBase b n ':' hb hb16 h with ⟨d, hd, hcd⟩
  exact digitChar_ne_colon d hd hcd.symm

/-- Helper: a canonical base rendering is never empty. -/
theorem natToBase_ne_nil (b n : Nat) : natToBase b n ≠ [] := by
  rw [natToBase]
  split
  · simp
  · simp [Nat.digits_ne_nil_iff_ne_zero, *]

/-- Helper: splitting always yields at least one group. -/
theorem splitOnChar_ne_nil (sep : Char) (cs : List Char) :
    splitOnChar sep cs ≠ [] := by
  cases cs with
  | nil => simp [splitOnChar]
  | cons c rest =>
      by_cases hc : c = sep
      · simp [splitOnChar, hc]
      · cases hr : splitOnChar sep rest with
        | nil => simp [splitOnChar, hc, hr]
        | cons g gs => simp [splitOnChar, hc, hr]

/-- Helper: a leading separator opens an empty group. -/
theorem splitOnChar_cons_sep (sep : Char) (cs : List Char) :
    splitOnChar sep (sep :: cs) = [] :: splitOnChar sep cs := by
  simp [splitOnChar]

/-- Helper: a leading non-separator character joins the first group. -/
theorem splitOnChar_cons_ne (sep c : Char) (cs : List Char) (hc : c ≠ sep)
    (g : List Char) (gs : List (List Char))
    (hr : splitOnChar sep cs = g :: gs) :
    splitOnChar sep (c :: cs) = (c :: g) :: gs := by
  simp [splitOnChar, hc, hr]

/-- Helper: a non-separator character of the input lies in some group of
the split. -/
theorem mem_split_part (sep : Char) (cs : List Char) (c : Char)
    (hc : c ∈ cs) (hne : c ≠ sep) :
    ∃ p ∈ splitOnChar sep cs, c ∈ p := by
  induction cs with
  | nil => cases hc
  | cons x rest ih =>
      by_cases hx : x = sep
      · have hsplit : splitOnChar sep (x :: rest)
            = [] :: splitOnChar sep rest := by
          rw [hx, splitOnChar_cons_sep]
        rcases List.mem_cons.mp hc with h1 | h1
        · exact absurd (h1.trans hx) hne
        · rcases ih h1 with ⟨p, hp, hcp⟩
          exact ⟨p, by rw [hsplit]; exact List.mem_cons_of_mem _ hp, hcp⟩
      · cases hr : splitOnChar sep rest with
        | nil => exact absurd hr (splitOnChar_ne_nil sep rest)
        | cons g gs =>
            have hsplit := splitOnChar_cons_ne sep x rest hx g gs hr
            rcases List.mem_cons.mp hc with h1 | h1
            · refine ⟨x :: g, by rw [hsplit]; exact List.mem_cons_self _ _,
                ?_⟩
              rw [h1]
              exact List.mem_cons_self x g
            · rcases ih h1 with ⟨p, hp, hcp⟩
              rcases List.mem_cons.mp (hr ▸ hp) with h2 | h2
              · refine ⟨x :: g, by rw [hsplit]; exact List.mem_cons_self _ _,
                  ?_⟩
                rw [h2] at hcp
                exact List.mem_cons_of_mem x hcp
              · exact ⟨p, by rw [hsplit]; exact List.mem_cons_of_mem _ h2,
                  hcp⟩

/-- Helper: splitting past a joined separator-free group list peels the
groups off before the remainder. -/
theorem splitOnChar_joinSep_append (sep : Char) (parts : List (List Char))
    (ys : List Char) (h : ∀ p ∈ parts, sep ∉ p) (hne : parts ≠ []) :
    splitOnChar sep (joinSep sep parts ++ sep :: ys)
      = parts ++ splitOnChar sep ys := by
  induction parts with
  | nil => exact absurd rfl hne
  | cons p rest ih =>
      cases rest with
      | nil =>
          simp only [joinSep]
          rw [splitOnChar_append_sep sep p ys (h p (List.mem_cons_self p _))]
          rfl
      | cons q rest2 =>
          have hjoin : joinSep sep (p :: q :: rest2)
              = p ++ sep :: joinSep sep (q :: rest2) := rfl
          rw [hjoin, List.append_assoc, List.cons_append,
            splitOnChar_append_sep sep p _ (h p (List.mem_cons_self p _)),
            ih (fun x hx => h x (List.mem_cons_of_mem p hx))
              (List.cons_ne_nil q rest2)]
          rfl

/-- Helper: the leading zero run is no longer than the list. -/
theorem prefixZeros_le_length (l : List Nat) : prefixZeros l ≤ l.length := by
  induction l with
  | nil => simp [prefixZeros]
  | cons s rest ih =>
      by_cases hs : s = 0
      · simp [prefixZeros, hs]
        omega
      · simp [prefixZeros, hs]

/-- Helper: a prefix within the leading zero run is all zeros. -/
theorem take_prefixZeros (l : List Nat) (k : Nat) (h : k ≤ prefixZeros l) :
    l.take k = List.replicate k 0 := by
  induction k generalizing l with
  | zero => simp
  | succ k ih =>
      cases l with
      | nil => simp [prefixZeros] at h
      | cons s rest =>
          by_cases hs : s = 0
          · subst hs
            simp only [prefixZeros, if_true] at h
            have h2 : k ≤ prefixZeros rest := by
              simp at h
              omega
            rw [List.take_succ_cons, List.replicate_succ, ih rest h2]
          · simp [prefixZeros, hs] at h

/-- Helper: the best zero run reported by `bestZeroRun` really is a zero
run: its length is zero or exactly the leading zero run at its start. -/
theorem bestZeroRun_spec (segs : List Nat) :
    (bestZeroRun segs).2 = 0 ∨
      (bestZeroRun segs).2
        = prefixZeros (segs.drop (bestZeroRun segs).1) := by
  suffices haux : ∀ (is : List Nat) (acc : Nat × Nat),
      (acc.2 = 0 ∨ acc.2 = prefixZeros (segs.drop acc.1)) →
      ((is.foldl (fun best i =>
          let len := prefixZeros (segs.drop i)
          if best.2 < len then (i, len) else best) acc).2 = 0 ∨
        (is.foldl (fun best i =>
          let len := prefixZeros (segs.drop i)
          if best.2 < len then (i, len) else best) acc).2
          = prefixZeros (segs.drop
            (is.foldl (fun best i =>
              let len := prefixZeros (segs.drop i)
              if best.2 < len then (i, len) else best) acc).1)) by
    exact haux (List.range segs.length) (0, 0) (Or.inl rfl)
  intro is
  induction is with
  | nil => intro acc hacc; exact hacc
  | cons i rest ih =>
      intro acc hacc
      simp only [List.foldl_cons]
      apply ih
      by_cases hlt : acc.2 < prefixZeros (segs.drop i)
      · simp [hlt]
      · simp only [if_neg hlt]
        exact hacc

/-- Helper: replacing a run of zeros inside its leading zero stretch
reconstructs the original list. -/
theorem zero_run_reconstruct (segs : List Nat) (s L : Nat)
    (h : L ≤ prefixZeros (segs.drop s)) :
    segs.take s ++ List.replicate L 0 ++ segs.drop (s + L) = segs := by
  have h1 : segs.drop s = List.replicate L 0 ++ segs.drop (s + L) := by
    conv_lhs => rw [← List.take_append_drop L (segs.drop s)]
    rw [take_prefixZeros _ L h, List.drop_drop, Nat.add_comm]
  calc segs.take s ++ List.replicate L 0 ++ segs.drop (s + L)
      = segs.take s ++ (List.replicate L 0 ++ segs.drop (s + L)) := by
        rw [List.append_assoc]
    _ = segs.take s ++ segs.drop s := by rw [← h1]
    _ = segs := List.take_append_drop s segs

/-- Helper: without a dot in its final group, the IPv4-tail expansion
passes the group list through unchanged. -/
theorem expandTailIpv4_no_dot (parts : List (List Char))
    (h : ∀ p ∈ parts, '.' ∉ p) :
    expandTailIpv4 parts = some (parts, []) := by
  induction parts with
  | nil => rfl
  | cons p rest ih =>
      cases rest with
      | nil =>
          have hp : '.' ∉ p := h p (List.mem_cons_self p _)
          simp [expandTailIpv4, hp]
      | cons q rest2 =>
          have hrest := ih (fun x hx => h x (List.mem_cons_of_mem p hx))
          simp [expandTailIpv4, hrest]

/-- Helper: `takeWhile nonempty` stops exactly at the first empty group. -/
theorem takeWhile_append_empty (hs ts : List (List Char))
    (h : ∀ p ∈ hs, p ≠ []) :
    (hs ++ [] :: ts).takeWhile (fun p => !p.isEmpty) = hs := by
  induction hs with
  | nil => simp [List.takeWhile_cons]
  | cons p rest ih =>
      have hp : p.isEmpty = false := by
        cases hp2 : p with
        | nil => exact absurd hp2 (h p (List.mem_cons_self p _))
        | cons a as => rfl
      simp [List.takeWhile_cons, hp,
        ih (fun x hx => h x (List.mem_cons_of_mem p hx))]

/-- Helper: `dropWhile nonempty` resumes exactly at the first empty
group. -/
theorem dropWhile_append_empty (hs ts : List (List Char))
    (h : ∀ p ∈ hs, p ≠ []) :
    (hs ++ [] :: ts).dropWhile (fun p => !p.isEmpty) = [] :: ts := by
  induction hs with
  | nil => simp [List.dropWhile_cons]
  | cons p rest ih =>
      have hp : p.isEmpty = false := by
        cases hp2 : p with
        | nil => exact absurd hp2 (h p (List.mem_cons_self p _))
        | cons a as => rfl
      simp [List.dropWhile_cons, hp,
        ih (fun x hx => h x (List.mem_cons_of_mem p hx))]

/-- Helper: filtering nonempty groups keeps a list of nonempty groups. -/
theorem filter_nonempty (l : List (List Char)) (h : ∀ p ∈ l, p ≠ []) :
    l.filter (fun p => !p.isEmpty) = l := by
  induction l with
  | nil => rfl
  | cons p rest ih =>
      have hp : p.isEmpty = false := by
        cases hp2 : p with
        | nil => exact absurd hp2 (h p (List.mem_cons_self p _))
        | cons a as => rfl
      simp [List.filter_cons, hp,
        ih (fun x hx => h x (List.mem_cons_of_mem p hx))]

/-- Helper: a list of nonempty groups has no empty group. -/
theorem any_isEmpty_false (l : List (List Char)) (h : ∀ p ∈ l, p ≠ []) :
    (l.any fun p => p.isEmpty) = false := by
  induction l with
  | nil => rfl
  | cons p rest ih =>
      have hp : p.isEmpty = false := by
        cases hp2 : p with
        | nil => exact absurd hp2 (h p (List.mem_cons_self p _))
        | cons a as => rfl
      simp [List.any_cons, hp, ih (fun x hx => h x (List.mem_cons_of_mem p hx))]

/-- Helper: a group containing a colon can never be a decimal octet. -/
theorem parseOctet_eq_none_of_colon (part : List Char) (h : ':' ∈ part) :
    parseOctet part = none := by
  have hbase : parseBase 10 part = none := by
    have hmapm : optionMapM digitVal part = none :=
      mapM_eq_none_of_mem digitVal h (by decide)
    rw [parseBase]
    split
    · rfl
    · rw [hmapm]
  rw [parseOctet]
  split
  · rfl
  · rw [hbase]

/-- Helper: an IPv4 display always contains a dot. -/
theorem dot_mem_ipv4_display (ip : Ipv4) : '.' ∈ Ipv4.display ip := by
  rw [show Ipv4.display ip = natToBase 10 ip.o1 ++ '.' ::
      joinSep '.' [natToBase 10 ip.o2, natToBase 10 ip.o3,
        natToBase 10 ip.o4] from rfl]
  exact List.mem_append_right _ (List.mem_cons_self _ _)

/-- Helper: an IPv4 display never contains a colon. -/
theorem colon_not_mem_ipv4_display (ip : Ipv4) :
    ':' ∉ Ipv4.display ip := by
  intro h
  rcases mem_joinSep '.' _ ':' h with h1 | ⟨p, hp, hcp⟩
  · exact absurd h1 (by decide)
  · rcases List.mem_cons.mp hp with h2 | h2
    · exact colon_not_mem_natToBase 10 ip.o1 (by norm_num) (by norm_num)
        (h2 ▸ hcp)
    rcases List.mem_cons.mp h2 with h3 | h3
    · exact colon_not_mem_natToBase 10 ip.o2 (by norm_num) (by norm_num)
        (h3 ▸ hcp)
    rcases List.mem_cons.mp h3 with h4 | h4
    · exact colon_not_mem_natToBase 10 ip.o3 (by norm_num) (by norm_num)
        (h4 ▸ hcp)
    rcases List.mem_cons.mp h4 with h5 | h5
    · exact colon_not_mem_natToBase 10 ip.o4 (by norm_num) (by norm_num)
        (h5 ▸ hcp)
    · cases h5

/-- Helper: a list of length eight is an explicit eight-element list. -/
theorem list_length_eight {α : Type} (l : List α) (h : l.length = 8) :
    ∃ a1 a2 a3 a4 a5 a6 a7 a8, l = [a1, a2, a3, a4, a5, a6, a7, a8] := by
  rcases l with _ | ⟨a1, l⟩
  · simp at h
  rcases l with _ | ⟨a2, l⟩
  · simp at h
  rcases l with _ | ⟨a3, l⟩
  · simp at h
  rcases l with _ | ⟨a4, l⟩
  · simp at h
  rcases l with _ | ⟨a5, l⟩
  · simp at h
  rcases l with _ | ⟨a6, l⟩
  · simp at h
  rcases l with _ | ⟨a7, l⟩
  · simp at h
  rcases l with _ | ⟨a8, l⟩
  · simp at h
  rcases l with _ | ⟨a9, l⟩
  · exact ⟨a1, a2, a3, a4, a5, a6, a7, a8, rfl⟩
  · simp only [List.length_cons, List.length_nil] at h
    omega

/-- Helper: the IPv4 display parses back to the address it came from. -/
theorem parseIpv4_display (ip : Ipv4) (h : IpAddr.wf (.V4 ip) = true) :
    parseIpv4 (Ipv4.display ip) = some ip := by
  have hw : ip.o1 < 256 ∧ ip.o2 < 256 ∧ ip.o3 < 256 ∧ ip.o4 < 256 := by
    simpa [IpAddr.wf, Bool.and_eq_true, decide_eq_true_eq, and_assoc]
      using h
  have hsplit : splitOnChar '.' (Ipv4.display ip)
      = [natToBase 10 ip.o1, natToBase 10 ip.o2, natToBase 10 ip.o3,
          natToBase 10 ip.o4] := by
    apply splitOnChar_joinSep
    · intro p hp
      rcases List.mem_cons.mp hp with h1 | h1
      · exact h1 ▸ dot_not_mem_natToBase 10 ip.o1 (by norm_num) (by norm_num)
      rcases List.mem_cons.mp h1 with h2 | h2
      · exact h2 ▸ dot_not_mem_natToBase 10 ip.o2 (by norm_num) (by norm_num)
      rcases List.mem_cons.mp h2 with h3 | h3
      · exact h3 ▸ dot_not_mem_natToBase 10 ip.o3 (by norm_num) (by norm_num)
      rcases List.mem_cons.mp h3 with h4 | h4
      · exact h4 ▸ dot_not_mem_natToBase 10 ip.o4 (by norm_num) (by norm_num)
      · cases h4
    · exact List.cons_ne_nil _ _
  rw [parseIpv4, hsplit]
  simp [optionMapM, parseOctet_natToBase ip.o1 (by omega),
    parseOctet_natToBase ip.o2 (by omega),
    parseOctet_natToBase ip.o3 (by omega),
    parseOctet_natToBase ip.o4 (by omega)]

/-- Helper: `optionMapM parseSeg` recovers the segments from their
renderings. -/
theorem mapM_parseSeg_map (segs : List Nat) (h : ∀ s ∈ segs, s < 65536) :
    optionMapM parseSeg (segs.map (natToBase 16)) = some segs := by
  induction segs with
  | nil => rfl
  | cons s rest ih =>
      have hs := parseSeg_natToBase s (h s (List.mem_cons_self s rest))
      have hrest := ih (fun x hx => h x (List.mem_cons_of_mem s hx))
      simp [optionMapM, hs, hrest]

/-- Helper: parsing the `::`-compressed form with head groups `hs` and
tail groups `ts` yields the address obtained by filling the gap with
zeros up to eight segments. -/
theorem parseIpv6_gap_form (hs ts : List Nat)
    (hhs : ∀ x ∈ hs, x < 65536) (hts : ∀ x ∈ ts, x < 65536)
    (hlen : hs.length + ts.length ≤ 7) :
    parseIpv6 (joinSep ':' (hs.map (natToBase 16)) ++ ':' :: ':' ::
        joinSep ':' (ts.map (natToBase 16)))
      = some ⟨hs ++ List.replicate (8 - (hs.length + ts.length)) 0 ++ ts⟩ := by
  have htailne : ∀ p ∈ ts.map (natToBase 16), p ≠ [] := by
    intro p hp
    rcases List.mem_map.mp hp with ⟨x, _, hx⟩
    exact hx ▸ natToBase_ne_nil 16 x
  have htailcol : ∀ p ∈ ts.map (natToBase 16), ':' ∉ p := by
    intro p hp
    rcases List.mem_map.mp hp with ⟨x, _, hx⟩
    exact hx ▸ colon_not_mem_natToBase 16 x (by norm_num) (by norm_num)
  have htaildot : ∀ p ∈ ts.map (natToBase 16), '.' ∉ p := by
    intro p hp
    rcases List.mem_map.mp hp with ⟨x, _, hx⟩
    exact hx ▸ dot_not_mem_natToBase 16 x (by norm_num) (by norm_num)
  have hheadne : ∀ p ∈ hs.map (natToBase 16), p ≠ [] := by
    intro p hp
    rcases List.mem_map.mp hp with ⟨x, _, hx⟩
    exact hx ▸ natToBase_ne_nil 16 x
  have hheadcol : ∀ p ∈ hs.map (natToBase 16), ':' ∉ p := by
    intro p hp
    rcases List.mem_map.mp hp with ⟨x, _, hx⟩
    exact hx ▸ colon_not_mem_natToBase 16 x (by norm_num) (by norm_num)
  have hheaddot : ∀ p ∈ hs.map (natToBase 16), '.' ∉ p := by
    intro p hp
    rcases List.mem_map.mp hp with ⟨x, _, hx⟩
    exact hx ▸ dot_not_mem_natToBase 16 x (by norm_num) (by norm_num)
  cases hs with
  | nil =>
      cases ts with
      | nil => decide
      | cons t ts2 =>
          have hsplit : splitOnChar ':'
              (joinSep ':' (([] : List Nat).map (natToBase 16)) ++ ':' ::
                ':' :: joinSep ':' ((t :: ts2).map (natToBase 16)))
              = [] :: [] :: (t :: ts2).map (natToBase 16) := by
            rw [show joinSep ':' (([] : List Nat).map (natToBase 16))
                = [] from rfl,
              List.nil_append, splitOnChar_cons_sep, splitOnChar_cons_sep,
              splitOnChar_joinSep ':' _ htailcol (by simp)]
          have hnodot : ∀ p ∈ ([] : List Char) :: [] ::
              (t :: ts2).map (natToBase 16), '.' ∉ p := by
            intro p hp
            rcases List.mem_cons.mp hp with h1 | h1
            · rw [h1]; simp
            rcases List.mem_cons.mp h1 with h2 | h2
            · rw [h2]; simp
            · exact htaildot p h2
          have htw : (([] : List Char) :: [] ::
              (t :: ts2).map (natToBase 16)).takeWhile
                (fun p => !p.isEmpty) = [] := rfl
          have hdwf : ((([] : List Char) :: [] ::
              (t :: ts2).map (natToBase 16)).dropWhile
                (fun p => !p.isEmpty)).filter (fun p => !p.isEmpty)
              = (t :: ts2).map (natToBase 16) := by
            rw [show (([] : List Char) :: [] ::
                (t :: ts2).map (natToBase 16)).dropWhile
                  (fun p => !p.isEmpty)
              = ([] : List Char) :: [] :: (t :: ts2).map (natToBase 16)
              from rfl]
            rw [show (([] : List Char) :: [] ::
                (t :: ts2).map (natToBase 16)).filter (fun p => !p.isEmpty)
              = ((t :: ts2).map (natToBase 16)).filter (fun p => !p.isEmpty)
              from rfl]
            exact filter_nonempty _ htailne
          have hany : ((([] : List Char) :: [] ::
              (t :: ts2).map (natToBase 16)).any fun p => p.isEmpty)
              = true := rfl
          simp only [parseIpv6, hsplit, expandTailIpv4_no_dot _ hnodot,
            hany, if_true, htw, hdwf,
            mapM_parseSeg_map (t :: ts2) hts]
          rw [show optionMapM parseSeg ([] : List (List Char))
            = some [] from rfl]
          simp only [List.length_nil, List.length_cons, Nat.add_zero,
            Nat.zero_add]
          split
          · simp
          · next hcond => exact absurd (by simpa using hlen) hcond
  | cons h1 hs2 =>
      have hheadmapne : (h1 :: hs2).map (natToBase 16) ≠ [] := by simp
      cases ts with
      | nil =>
          have hsplit : splitOnChar ':'
              (joinSep ':' ((h1 :: hs2).map (natToBase 16)) ++ ':' ::
                ':' :: joinSep ':' (([] : List Nat).map (natToBase 16)))
              = (h1 :: hs2).map (natToBase 16) ++ [] :: [[]] := by
            rw [show joinSep ':' (([] : List Nat).map (natToBase 16))
                = [] from rfl,
              splitOnChar_joinSep_append ':' _ _ hheadcol hheadmapne,
              splitOnChar_cons_sep]
            rfl
          have hnodot : ∀ p ∈ (h1 :: hs2).map (natToBase 16) ++
              ([] : List Char) :: [[]], '.' ∉ p := by
            intro p hp
            rcases List.mem_append.mp hp with h2 | h2
            · exact hheaddot p h2
            · rcases List.mem_cons.mp h2 with h3 | h3
              · rw [h3]; simp
              · rw [List.mem_singleton.mp h3]; simp
          have htw : ((h1 :: hs2).map (natToBase 16) ++
              ([] : List Char) :: [[]]).takeWhile (fun p => !p.isEmpty)
              = (h1 :: hs2).map (natToBase 16) :=
            takeWhile_append_empty _ _ hheadne
          have hdwf : (((h1 :: hs2).map (natToBase 16) ++
              ([] : List Char) :: [[]]).dropWhile
                (fun p => !p.isEmpty)).filter (fun p => !p.isEmpty)
              = [] := by
            rw [dropWhile_append_empty _ _ hheadne]
            rfl
          have hany : (((h1 :: hs2).map (natToBase 16) ++
              ([] : List Char) :: [[]]).any fun p => p.isEmpty)
              = true := by
            simp [List.any_append]
          simp only [parseIpv6, hsplit, expandTailIpv4_no_dot _ hnodot,
            hany, if_true, htw, hdwf, mapM_parseSeg_map (h1 :: hs2) hhs]
          rw [show optionMapM parseSeg ([] : List (List Char))
            = some [] from rfl]
          simp only [List.length_nil, List.length_cons, Nat.add_zero,
            Nat.zero_add]
          split
          · simp
          · next hcond => exact absurd (by simpa using hlen) hcond
      | cons t ts2 =>
          have hsplit : splitOnChar ':'
              (joinSep ':' ((h1 :: hs2).map (natToBase 16)) ++ ':' ::
                ':' :: joinSep ':' ((t :: ts2).map (natToBase 16)))
              = (h1 :: hs2).map (natToBase 16) ++
                [] :: (t :: ts2).map (natToBase 16) := by
            rw [splitOnChar_joinSep_append ':' _ _ hheadcol hheadmapne,
              splitOnChar_cons_sep,
              splitOnChar_joinSep ':' _ htailcol (by simp)]
          have hnodot : ∀ p ∈ (h1 :: hs2).map (natToBase 16) ++
              ([] : List Char) :: (t :: ts2).map (natToBase 16),
              '.' ∉ p := by
            intro p hp
            rcases List.mem_append.mp hp with h2 | h2
            · exact hheaddot p h2
            · rcases List.mem_cons.mp h2 with h3 | h3
              · rw [h3]; simp
              · exact htaildot p h3
          have htw : ((h1 :: hs2).map (natToBase 16) ++
              ([] : List Char) :: (t :: ts2).map (natToBase 16)).takeWhile
                (fun p => !p.isEmpty)
              = (h1 :: hs2).map (natToBase 16) :=
            takeWhile_append_empty _ _ hheadne
          have hdwf : (((h1 :: hs2).map (natToBase 16) ++
              ([] : List Char) :: (t :: ts2).map (natToBase 16)).dropWhile
                (fun p => !p.isEmpty)).filter (fun p => !p.isEmpty)
              = (t :: ts2).map (natToBase 16) := by
            rw [dropWhile_append_empty _ _ hheadne]
            rw [show (([] : List Char) ::
                (t :: ts2).map (natToBase 16)).filter (fun p => !p.isEmpty)
              = ((t :: ts2).map (natToBase 16)).filter (fun p => !p.isEmpty)
              from rfl]
            exact filter_nonempty _ htailne
          have hany : (((h1 :: hs2).map (natToBase 16) ++
              ([] : List Char) :: (t :: ts2).map (natToBase 16)).any
                fun p => p.isEmpty) = true := by
            simp [List.any_append]
          simp only [parseIpv6, hsplit, expandTailIpv4_no_dot _ hnodot,
            hany, if_true, htw, hdwf, mapM_parseSeg_map (h1 :: hs2) hhs,
            mapM_parseSeg_map (t :: ts2) hts]
          simp only [List.length_nil, List.length_cons, Nat.add_zero,
            Nat.zero_add]
          split
          · simp
          · next hcond => exact absurd (by simpa using hlen) hcond

/-- Helper: the IPv6 display parses back to the address it came from. -/
theorem parseIpv6_display (ip : Ipv6) (h : IpAddr.wf (.V6 ip) = true) :
    parseIpv6 (Ipv6.display ip) = some ip := by
  have hw : ip.segs.length = 8 ∧ ∀ s ∈ ip.segs, s < 65536 := by
    simpa only [IpAddr.wf, Bool.and_eq_true, beq_iff_eq,
      List.all_eq_true, decide_eq_true_eq] using h
  rw [Ipv6.display]
  by_cases hmap : ip.segs.length = 8 ∧
      ip.segs.take 6 = [0, 0, 0, 0, 0, 65535]
  · rw [if_pos hmap]
    obtain ⟨a1, a2, a3, a4, a5, a6, a7, a8, hseg⟩ :=
      list_length_eight ip.segs hw.1
    have htake : ([a1, a2, a3, a4, a5, a6] : List Nat)
        = [0, 0, 0, 0, 0, 65535] := by
      have h2 := hmap.2
      rw [hseg] at h2
      exact h2
    obtain ⟨e1, e2, e3, e4, e5, e6⟩ : a1 = 0 ∧ a2 = 0 ∧ a3 = 0 ∧ a4 = 0
        ∧ a5 = 0 ∧ a6 = 65535 := by
      simpa using htake
    subst e1; subst e2; subst e3; subst e4; subst e5; subst e6
    rw [hseg,
      show (([0, 0, 0, 0, 0, 65535, a7, a8] : List Nat)).getD 6 0 = a7
        from rfl,
      show (([0, 0, 0, 0, 0, 65535, a7, a8] : List Nat)).getD 7 0 = a8
        from rfl]
    have h7 : a7 < 65536 := hw.2 a7 (by rw [hseg]; simp)
    have h8 : a8 < 65536 := hw.2 a8 (by rw [hseg]; simp)
    have hwf4 : IpAddr.wf
        (.V4 ⟨a7 / 256, a7 % 256, a8 / 256, a8 % 256⟩) = true := by
      simp only [IpAddr.wf, Bool.and_eq_true, decide_eq_true_eq]
      refine ⟨⟨⟨?_, ?_⟩, ?_⟩, ?_⟩ <;> omega
    set v4d := Ipv4.display ⟨a7 / 256, a7 % 256, a8 / 256, a8 % 256⟩
      with hv4dd
    have hv4split : splitOnChar ':' v4d = [v4d] :=
      splitOnChar_of_not_mem ':' v4d (colon_not_mem_ipv4_display _)
    have hsp0 : splitOnChar ':' (':' :: v4d) = [] :: [v4d] := by
      rw [splitOnChar_cons_sep, hv4split]
    have hsp1 : splitOnChar ':' ('f' :: ':' :: v4d) = ['f'] :: [v4d] :=
      splitOnChar_cons_ne ':' 'f' _ (by decide) _ _ hsp0
    have hsp2 : splitOnChar ':' ('f' :: 'f' :: ':' :: v4d)
        = ['f', 'f'] :: [v4d] :=
      splitOnChar_cons_ne ':' 'f' _ (by decide) _ _ hsp1
    have hsp3 : splitOnChar ':' ('f' :: 'f' :: 'f' :: ':' :: v4d)
        = ['f', 'f', 'f'] :: [v4d] :=
      splitOnChar_cons_ne ':' 'f' _ (by decide) _ _ hsp2
    have hsp4 : splitOnChar ':' ('f' :: 'f' :: 'f' :: 'f' :: ':' :: v4d)
        = ['f', 'f', 'f', 'f'] :: [v4d] :=
      splitOnChar_cons_ne ':' 'f' _ (by decide) _ _ hsp3
    have hsp5 : splitOnChar ':'
        (':' :: 'f' :: 'f' :: 'f' :: 'f' :: ':' :: v4d)
        = [] :: ['f', 'f', 'f', 'f'] :: [v4d] := by
      rw [splitOnChar_cons_sep, hsp4]
    have hsp6 : splitOnChar ':'
        (':' :: ':' :: 'f' :: 'f' :: 'f' :: 'f' :: ':' :: v4d)
        = [] :: [] :: ['f', 'f', 'f', 'f'] :: [v4d] := by
      rw [splitOnChar_cons_sep, hsp5]
    have hv4parse : parseIpv4 v4d
        = some ⟨a7 / 256, a7 % 256, a8 / 256, a8 % 256⟩ :=
      parseIpv4_display _ hwf4
    have hdget : '.' ∈ v4d := dot_mem_ipv4_display _
    have hdm7 : a7 / 256 * 256 + a7 % 256 = a7 := by omega
    have hdm8 : a8 / 256 * 256 + a8 % 256 = a8 := by omega
    have hexp : expandTailIpv4 ([] :: [] :: ['f', 'f', 'f', 'f'] :: [v4d])
        = some ([[], [], ['f', 'f', 'f', 'f']], [a7, a8]) := by
      simp [expandTailIpv4, hdget, hv4parse, hdm7, hdm8]
    simp only [parseIpv6, hsp6, hexp]
    rw [show ((([] : List Char) :: [] :: [['f', 'f', 'f', 'f']]).any
        fun p => p.isEmpty) = true from rfl, if_pos rfl]
    rw [show (([] : List Char) :: [] ::
        [['f', 'f', 'f', 'f']]).takeWhile (fun p => !p.isEmpty) = []
      from rfl]
    rw [show ((([] : List Char) :: [] ::
        [['f', 'f', 'f', 'f']]).dropWhile (fun p => !p.isEmpty)).filter
          (fun p => !p.isEmpty) = [['f', 'f', 'f', 'f']] from rfl]
    rw [show optionMapM parseSeg ([] : List (List Char)) = some []
      from rfl]
    rw [show optionMapM parseSeg [['f', 'f', 'f', 'f']] = some [65535]
      from rfl]
    show some (Ipv6.mk [0, 0, 0, 0, 0, 65535, a7, a8]) = some ip
    rw [← hseg]
  · rw [if_neg hmap]
    rcases hbest : bestZeroRun ip.segs with ⟨s, L⟩
    simp only [hbest]
    by_cases hL : 1 < L
    · rw [if_pos hL]
      have hspec := bestZeroRun_spec ip.segs
      rw [hbest] at hspec
      simp only at hspec
      have hLpz : L = prefixZeros (ip.segs.drop s) := by
        rcases hspec with h0 | h0
        · omega
        · exact h0
      have hdropne : ip.segs.drop s ≠ [] := by
        intro hnil
        rw [hnil] at hLpz
        simp [prefixZeros] at hLpz
        omega
      have hs8 : s < 8 := by
        by_contra hge
        exact hdropne (List.drop_eq_nil_of_le (by rw [hw.1]; omega))
      have hsL8 : s + L ≤ 8 := by
        have h1 := prefixZeros_le_length (ip.segs.drop s)
        rw [List.length_drop, hw.1] at h1
        omega
      have hlens : (ip.segs.take s).length = s := by
        rw [List.length_take, hw.1]
        omega
      have hlend : (ip.segs.drop (s + L)).length = 8 - (s + L) := by
        rw [List.length_drop, hw.1]
      rw [parseIpv6_gap_form (ip.segs.take s) (ip.segs.drop (s + L))
        (fun x hx => hw.2 x (List.take_subset _ _ hx))
        (fun x hx => hw.2 x (List.drop_subset _ _ hx))
        (by rw [hlens, hlend]; omega)]
      rw [hlens, hlend,
        show 8 - (s + (8 - (s + L))) = L from by omega,
        zero_run_reconstruct ip.segs s L (by rw [← hLpz])]
    · rw [if_neg hL]
      have hmapne : ip.segs.map (natToBase 16) ≠ [] := by
        intro hnil
        have h2 := congrArg List.length hnil
        rw [List.length_map, hw.1] at h2
        simp at h2
      have hcol : ∀ p ∈ ip.segs.map (natToBase 16), ':' ∉ p := by
        intro p hp
        rcases List.mem_map.mp hp with ⟨x, _, hx⟩
        exact hx ▸ colon_not_mem_natToBase 16 x (by norm_num) (by norm_num)
      have hdot : ∀ p ∈ ip.segs.map (natToBase 16), '.' ∉ p := by
        intro p hp
        rcases List.mem_map.mp hp with ⟨x, _, hx⟩
        exact hx ▸ dot_not_mem_natToBase 16 x (by norm_num) (by norm_num)
      have hne : ∀ p ∈ ip.segs.map (natToBase 16), p ≠ [] := by
        intro p hp
        rcases List.mem_map.mp hp with ⟨x, _, hx⟩
        exact hx ▸ natToBase_ne_nil 16 x
      have hsplit : splitOnChar ':'
          (joinSep ':' (ip.segs.map (natToBase 16)))
          = ip.segs.map (natToBase 16) :=
        splitOnChar_joinSep ':' _ hcol hmapne
      simp only [parseIpv6, hsplit, expandTailIpv4_no_dot _ hdot,
        any_isEmpty_false _ hne, Bool.false_eq_true, if_false,
        mapM_parseSeg_map ip.segs hw.2]
      simp [hw.1]

/-- Helper: an IPv6 display never parses as an IPv4 address: every form
it takes contains a colon, so some dot-separated group contains a colon
and fails the octet parse. -/
theorem parseIpv4_of_v6_display (ip : Ipv6) (hlen : ip.segs.length = 8) :
    parseIpv4 (Ipv6.display ip) = none := by
  have hcolon : ':' ∈ Ipv6.display ip := by
    rw [Ipv6.display]
    by_cases hmap : ip.segs.length = 8 ∧
        ip.segs.take 6 = [0, 0, 0, 0, 0, 65535]
    · rw [if_pos hmap]
      exact List.mem_cons_self _ _
    · rw [if_neg hmap]
      dsimp only
      by_cases hL : 1 < (bestZeroRun ip.segs).2
      · rw [if_pos hL]
        exact List.mem_append_right _ (List.mem_cons_self _ _)
      · rw [if_neg hL]
        obtain ⟨a1, a2, a3, a4, a5, a6, a7, a8, hseg⟩ :=
          list_length_eight ip.segs hlen
        rw [hseg]
        rw [show (([a1, a2, a3, a4, a5, a6, a7, a8] : List Nat).map
            (natToBase 16))
          = natToBase 16 a1 ::
            (([a2, a3, a4, a5, a6, a7, a8] : List Nat).map (natToBase 16))
          from rfl]
        rw [show joinSep ':' (natToBase 16 a1 ::
            (([a2, a3, a4, a5, a6, a7, a8] : List Nat).map (natToBase 16)))
          = natToBase 16 a1 ++ ':' :: joinSep ':'
            (([a2, a3, a4, a5, a6, a7, a8] : List Nat).map (natToBase 16))
          from rfl]
        exact List.mem_append_right _ (List.mem_cons_self _ _)
  rcases mem_split_part '.' (Ipv6.display ip) ':' hcolon (by decide)
    with ⟨p, hp, hcp⟩
  have hoct : parseOctet p = none := parseOctet_eq_none_of_colon p hcp
  have hmapm : optionMapM parseOctet (splitOnChar '.' (Ipv6.display ip))
      = none :=
    mapM_eq_none_of_mem parseOctet hp hoct
  rw [parseIpv4, hmapm]

/-- Helper: the displayed form of a wellformed `IpAddr` parses back to
the same address. -/
theorem parseIp_displayString (ip : IpAddr) (h : ip.wf = true) :
    parseIp (IpAddr.displayString ip) = some ip := by
  have hdata : (IpAddr.displayString ip).data = ip.display := rfl
  rw [parseIp, hdata]
  cases ip with
  | V4 ip4 =>
      rw [parseIpChars, IpAddr.display, parseIpv4_display ip4 h]
  | V6 ip6 =>
      have hlen : ip6.segs.length = 8 := by
        simp only [IpAddr.wf, Bool.and_eq_true, beq_iff_eq] at h
        exact h.1
      rw [parseIpChars, IpAddr.display, parseIpv4_of_v6_display ip6 hlen,
        parseIpv6_display ip6 h]

/-- Helper: deserializing the number serialized for an unsigned integral
field recovers the value. -/
theorem asNat_jNat (n : Nat) : Json.asNat (jNat n) = some n := by
  simp [Json.asNat, jNat]

/-- Helper: deserializing the number serialized for a signed integral
field recovers the value. -/
theorem asInt_jInt (i : Int) : Json.asInt (jInt i) = some i := by
  simp [Json.asInt, jInt]

/-- Helper: deserializing the array serialized for a `Vec<u8>` field
recovers the bytes. -/
theorem asBytes_jBytes (l : List Nat) : Json.asBytes (jBytes l) = some l := by
  induction l with
  | nil => rfl
  | cons b rest ih =>
      simp only [jBytes, Json.asBytes, List.map_cons, optionMapM,
        asNat_jNat]
      simp only [jBytes, Json.asBytes] at ih
      rw [ih]

/-- Helper: deserializing the array serialized for a `Vec<String>` field
recovers the strings. -/
theorem asStrList_jStrList (l : List String) :
    Json.asStrList (jStrList l) = some l := by
  induction l with
  | nil => rfl
  | cons s rest ih =>
      simp only [jStrList, Json.asStrList, List.map_cons, optionMapM,
        Json.asStr]
      simp only [jStrList, Json.asStrList] at ih
      rw [ih]

/-- Helper: the serde name of a record type deserializes back to it. -/
theorem recordType_serdeName_round (rt : RecordType) :
    RecordType.ofSerdeName rt.serdeName = some rt := by
  cases rt <;> rfl

/-- Helper: the serde name of a response code deserializes back to it. -/
theorem responseCode_serdeName_round (rc : ResponseCode) :
    ResponseCode.ofSerdeName rc.serdeName = some rc := by
  cases rc <;> rfl

/-- Helper: the untagged serialization of every round-trippable
`RecordValue` variant deserializes back to the same variant. -/
theorem toRecordValue_toJson (v : RecordValue) (h : v.roundTrips = true) :
    Json.toRecordValue v.toJson = some v := by
  cases v with
  | Ip ip =>
      have hwf : ip.wf = true := by
        simpa [RecordValue.roundTrips] using h
      simp [RecordValue.toJson, Json.toRecordValue,
        parseIp_displayString ip hwf]
  | Domain d =>
      have hnone : parseIp d = none := by
        have h2 := h
        simp only [RecordValue.roundTrips, Option.isNone_iff_eq_none] at h2
        exact h2
      simp [RecordValue.toJson, Json.toRecordValue, hnone]
  | Text t => simp [RecordValue.roundTrips] at h
  | Key flags protocol algorithm public_key =>
      simp [RecordValue.roundTrips] at h
  | Svcb priority target params => simp [RecordValue.roundTrips] at h
  | Other s => simp [RecordValue.roundTrips] at h
  | Mx priority exchange =>
      simp [RecordValue.toJson, Json.toRecordValue, orTry, tryMx, getNat,
        getStr, jGet, asNat_jNat, Json.asStr]
  | Srv priority weight port target =>
      simp [RecordValue.toJson, Json.toRecordValue, orTry, tryMx, trySrv,
        getNat, getStr, jGet, asNat_jNat, Json.asStr]
  | Soa mname rname serial refresh retry expire minimum =>
      simp [RecordValue.toJson, Json.toRecordValue, orTry, tryMx, trySrv,
        trySoa, getNat, getStr, getInt, jGet, asNat_jNat, asInt_jInt,
        Json.asStr]
  | Caa flags tag value =>
      simp [RecordValue.toJson, Json.toRecordValue, orTry, tryMx, trySrv,
        trySoa, tryCaa, getNat, getStr, jGet, asNat_jNat, Json.asStr]
  | Cert cert_type key_tag algorithm certificate =>
      simp [RecordValue.toJson, Json.toRecordValue, orTry, tryMx, trySrv,
        trySoa, tryCaa, tryCert, getNat, getStr, getBytes, jGet,
        asNat_jNat, asBytes_jBytes, Json.asStr]
  | Dnskey flags protocol algorithm public_key =>
      simp [RecordValue.toJson, Json.toRecordValue, orTry, tryMx, trySrv,
        trySoa, tryCaa, tryCert, tryDnskey, getNat, getStr, getBytes, jGet,
        asNat_jNat, asBytes_jBytes, Json.asStr]
  | Ds key_tag algorithm digest_type digest =>
      simp [RecordValue.toJson, Json.toRecordValue, orTry, tryMx, trySrv,
        trySoa, tryCaa, tryCert, tryDnskey, tryDs, getNat, getStr, getBytes,
        jGet, asNat_jNat, asBytes_jBytes, Json.asStr]
  | Hinfo cpu os =>
      simp [RecordValue.toJson, Json.toRecordValue, orTry, tryMx, trySrv,
        trySoa, tryCaa, tryCert, tryDnskey, tryDs, tryHinfo, getNat, getStr,
        jGet, asNat_jNat, Json.asStr]
  | Https priority target params =>
      simp [RecordValue.toJson, Json.toRecordValue, orTry, tryMx, trySrv,
        trySoa, tryCaa, tryCert, tryDnskey, tryDs, tryHinfo, tryHttps,
        getNat, getStr, getStrList, jGet, asNat_jNat, asStrList_jStrList,
        Json.asStr]
  | Loc version size horiz_pre vert_pre latitude longitude altitude =>
      simp [RecordValue.toJson, Json.toRecordValue, orTry, tryMx, trySrv,
        trySoa, tryCaa, tryCert, tryDnskey, tryDs, tryHinfo, tryHttps,
        tryKey, tryLoc, getNat, getStr, getBytes, jGet, asNat_jNat,
        Json.asStr]
  | Naptr order preference flags services regexp replacement =>
      simp [RecordValue.toJson, Json.toRecordValue, orTry, tryMx, trySrv,
        trySoa, tryCaa, tryCert, tryDnskey, tryDs, tryHinfo, tryHttps,
        tryKey, tryLoc, tryNaptr, getNat, getStr, getBytes, jGet,
        asNat_jNat, Json.asStr]
  | Sshfp algorithm fingerprint_type fingerprint =>
      simp [RecordValue.toJson, Json.toRecordValue, orTry, tryMx, trySrv,
        trySoa, tryCaa, tryCert, tryDnskey, tryDs, tryHinfo, tryHttps,
        tryKey, tryLoc, tryNaptr, trySshfp, getNat, getStr, getBytes, jGet,
        asNat_jNat, asBytes_jBytes, Json.asStr]
  | Tlsa cert_usage selector matching_type cert_data =>
      simp [RecordValue.toJson, Json.toRecordValue, orTry, tryMx, trySrv,
        trySoa, tryCaa, tryCert, tryDnskey, tryDs, tryHinfo, tryHttps,
        tryKey, tryLoc, tryNaptr, trySshfp, trySvcb, tryTlsa, getNat,
        getStr, getBytes, getStrList, jGet, asNat_jNat, asBytes_jBytes,
        Json.asStr]
  | Uri priority weight target =>
      simp [RecordValue.toJson, Json.toRecordValue, orTry, tryMx, trySrv,
        trySoa, tryCaa, tryCert, tryDnskey, tryDs, tryHinfo, tryHttps,
        tryKey, tryLoc, tryNaptr, trySshfp, trySvcb, tryTlsa, tryUri,
        getNat, getStr, getBytes, getStrList, jGet, asNat_jNat,
        Json.asStr]

/-- C8 counterexample: serializing a `DnsRecord` carrying the `Text`
variant and deserializing yields a record carrying the `Domain` variant
with the same string — untagged deserialization tries `Domain` before
`Text` and both are bare strings — so the round trip does not return an
equal record for all variants. -/
theorem dnsrecord_json_round_trip_cx :
    Json.toDnsRecord (DnsRecord.toJson
        ⟨"example.com", .Txt, .Text "hello", 300, .NoError, "8.8.8.8:53",
          0, 0⟩)
      = some ⟨"example.com", .Txt, .Domain "hello", 300, .NoError,
          "8.8.8.8:53", 0, 0⟩
    ∧ (⟨"example.com", .Txt, .Domain "hello", 300, .NoError, "8.8.8.8:53",
          0, 0⟩ : DnsRecord)
      ≠ ⟨"example.com", .Txt, .Text "hello", 300, .NoError, "8.8.8.8:53",
          0, 0⟩ := by
  constructor
  · decide
  · decide

/-- C8 (amended): serializing a `DnsRecord` to JSON and deserializing
yields an equal record whenever the value variant's untagged encoding is
unambiguous — that is, for every variant except `Text`, `Key`, `Svcb` and
`Other` (which deserialize as the earlier identically-encoded variant
`Domain` resp. `Dnskey` resp. `Https` resp. `Domain`), and except
`Domain` strings that themselves parse as an IP address. -/
theorem dnsrecord_json_round_trip (r : DnsRecord)
    (h : r.value.roundTrips = true) :
    Json.toDnsRecord (DnsRecord.toJson r) = some r := by
  obtain ⟨domain, rt, v, ttl, rc, resolver, ts, qt⟩ := r
  have h2 : v.roundTrips = true := h
  simp [DnsRecord.toJson, Json.toDnsRecord, getStr, getNat, getRat, jGet,
    Json.asStr, Json.asRat, asNat_jNat, recordType_serdeName_round,
    responseCode_serdeName_round, toRecordValue_toJson v h2]

/-- Witness for the amended C8 theorem at a concrete `Mx` record. -/
theorem dnsrecord_json_round_trip_witness :
    (RecordValue.Mx 10 "mail.example.com").roundTrips = true
    ∧ Json.toDnsRecord (DnsRecord.toJson
        ⟨"example.com", .Mx, .Mx 10 "mail.example.com", 3600, .NoError,
          "8.8.8.8:53", 5, 12⟩)
      = some ⟨"example.com", .Mx, .Mx 10 "mail.example.com", 3600,
          .NoError, "8.8.8.8:53", 5, 12⟩ :=
  ⟨rfl, dnsrecord_json_round_trip
    ⟨"example.com", .Mx, .Mx 10 "mail.example.com", 3600, .NoError,
      "8.8.8.8:53", 5, 12⟩ rfl⟩

end RDNSx
